import Mathlib

/-!
# Variable resolution of `boilerplate` (`config/get_variables.go`)

A shallow embedding of the variable resolution engine: the catalog builder
`getAllVariablesInConfig`, the resolver `getValueForVariable`, the value-source
policy `getVariable` and the two-phase driver `GetVariables`.

Conventions of the embedding.

* A Go value of type `interface{}` that carries configuration data (a default, a
  command line override, a parsed answer) is an `Option α`: `none` is Go's `nil`,
  `some a` a non-nil dynamic value drawn from an arbitrary carrier `α`.
* The resolved-value map holds `Value α`: such data, or one of the three synthetic
  introspection entries the driver injects.
* A Go map is a `GoMap`: an association list with pairwise distinct keys. The
  iteration order of a `range` loop over a map is not fixed by Go, so every loop over
  the catalog takes its order as an argument.
* Terminal input and output thread an explicit world state `σ`.
* Go's `(value, error)` result is an `Except Error _`; `errors.WithStackTrace` only
  decorates the error and is the identity here. Writes to `util.Logger` are omitted.
* `getValueForVariableFuel` and `firstLoopFuel` run the same bodies on a budget of
  invocations, `getValueForVariableTraced`, `firstLoopTraced` and `secondLoopRenderCalls`
  record the calls of `getVariable` and of the renderer; the first four are proved to
  return the result of the function they copy, the last to record one call for each
  variable of a successful second loop.
-/

namespace Boilerplate

/-! ## Go maps -/

/-- First value stored under key `k` in an association list. -/
def lookupEntry {β : Type} : List (String × β) → String → Option β
  | [], _ => none
  | (k', v) :: rest, k => if k' = k then some v else lookupEntry rest k

/-- Assignment `m[k] = v` on an association list: overwrite in place, else append. -/
def setEntry {β : Type} : List (String × β) → String → β → List (String × β)
  | [], k, v => [(k, v)]
  | (k', v') :: rest, k, v => if k' = k then (k, v) :: rest else (k', v') :: setEntry rest k v

theorem keys_setEntry {β : Type} (l : List (String × β)) (k : String) (v : β) :
    ∀ x, x ∈ (setEntry l k v).map Prod.fst ↔ x = k ∨ x ∈ l.map Prod.fst := by
  induction l with
  | nil => intro x; simp [setEntry]
  | cons hd tl ih =>
    intro x
    obtain ⟨k', v'⟩ := hd
    by_cases h : k' = k
    · subst h; simp [setEntry]
    · simp only [setEntry, h, if_false, List.map_cons, List.mem_cons, ih]
      tauto

theorem nodup_setEntry {β : Type} (l : List (String × β)) (k : String) (v : β)
    (h : (l.map Prod.fst).Nodup) : ((setEntry l k v).map Prod.fst).Nodup := by
  induction l with
  | nil => simp [setEntry]
  | cons hd tl ih =>
    obtain ⟨k', v'⟩ := hd
    simp only [List.map_cons, List.nodup_cons] at h
    by_cases hk : k' = k
    · subst hk; simpa [setEntry] using h
    · simp only [setEntry, hk, if_false, List.map_cons, List.nodup_cons]
      refine ⟨?_, ih h.2⟩
      intro hmem
      rcases (keys_setEntry tl k v k').1 hmem with h1 | h1
      · exact hk h1
      · exact h.1 h1

/-- A Go `map[string]β`: an association list whose keys are pairwise distinct. -/
structure GoMap (β : Type) where
  entries : List (String × β)
  nodup : (entries.map Prod.fst).Nodup
  deriving DecidableEq

namespace GoMap

/-- The empty map `map[string]β{}`. -/
def empty {β : Type} : GoMap β := ⟨[], List.nodup_nil⟩

/-- The lookup `v, ok := m[k]`. -/
def get? {β : Type} (m : GoMap β) (k : String) : Option β := lookupEntry m.entries k

/-- The assignment `m[k] = v`. -/
def set {β : Type} (m : GoMap β) (k : String) (v : β) : GoMap β :=
  ⟨setEntry m.entries k v, nodup_setEntry m.entries k v m.nodup⟩

/-- The values of the map, in the order of its entries. -/
def values {β : Type} (m : GoMap β) : List β := m.entries.map Prod.snd

/-- The list `order` is one of the orders in which `range m` may yield the values of `m`. -/
def IsIterationOrder {β : Type} (m : GoMap β) (order : List β) : Prop :=
  order.Perm m.values

end GoMap

/-! ## Data model -/

/-- Go's `int` constant `MaxReferenceDepth`. -/
def MaxReferenceDepth : Int := 20

/-- The `variables.Variable` interface: one field for each of its methods. -/
structure Variable (α : Type) where
  Name : String
  FullName : String
  Description : String
  VarType : String
  ExampleValue : String
  Default : Option α
  Reference : String
  deriving DecidableEq

/-- The `variables.Dependency` struct; `GetNamespacedVariables` is the result of the
method of that name. -/
structure Dependency (α : Type) where
  Name : String
  GetNamespacedVariables : List (Variable α)
  deriving DecidableEq

/-- The `BoilerplateConfig` struct. -/
structure BoilerplateConfig (α : Type) where
  Variables : List (Variable α)
  Dependencies : List (Dependency α)
  deriving DecidableEq

/-- The `options.BoilerplateOptions` struct. -/
structure BoilerplateOptions (α : Type) where
  Vars : GoMap (Option α)
  NonInteractive : Bool
  deriving DecidableEq

/-- The entries of the resolved-value map (`map[string]interface{}`). -/
inductive Value (α : Type) where
  /-- configuration data: an override, a default, a parsed answer -/
  | data (x : Option α)
  /-- the map `rootConfigVars` -/
  | configVars (m : GoMap (Variable α))
  /-- the map `rootConfigDeps` -/
  | configDeps (m : GoMap (Dependency α))
  /-- the map `thisTemplateProps` with its keys `Config`, `Options`, `CurrentDep` -/
  | thisTemplateProps (config : BoilerplateConfig α) (opts : BoilerplateOptions α)
      (currentDep : Dependency α)
  deriving DecidableEq

deriving instance DecidableEq for Except

/-- The custom error types of the package, and the errors of the collaborators. -/
inductive Error where
  | MissingVariableWithNonInteractiveMode (variableName : String)
  | MissingReference (VariableName ReferenceName : String)
  | CyclicalReference (VariableName ReferenceName : String)
  /-- an error returned by the prompt, the YAML parser, the renderer or the converter -/
  | collaborator (msg : String)
  deriving DecidableEq

/-- The external collaborators, over a world state `σ` for the terminal. -/
structure Env (α σ : Type) where
  /-- `util.PromptUserForInput` -/
  PromptUserForInput : String → σ → Except Error String × σ
  /-- `variables.ParseYamlString` -/
  ParseYamlString : String → Except Error (Option α)
  /-- `render.RenderVariable` -/
  RenderVariable : Value α → GoMap (Value α) → BoilerplateOptions α → Except Error (Value α)
  /-- `variables.ConvertType` -/
  ConvertType : Value α → Variable α → Except Error (Value α)
  /-- a write to the terminal (`fmt.Printf`, `util.BRIGHT_GREEN.Printf`) -/
  Printf : String → σ → σ
  /-- the text `fmt` prints for a value under `%s` -/
  Sprint : Option α → String

/-! ## The value-source policy -/

section Policy

variable {α σ : Type}

/-- Return the value of the given variable from vars passed in as command line options:
`some value` when an entry is found, `none` for `(nil, false)`. -/
def getVariableFromVars (var : Variable α) (opts : BoilerplateOptions α) :
    Option (Option α) :=
  match opts.Vars.entries.find? (fun e => decide (e.1 = var.Name)) with
  | some e => some e.2
  | none => none

/-- Get the value for the given variable by prompting the user. -/
def getVariableFromUser (env : Env α σ) (var : Variable α)
    (_opts : BoilerplateOptions α) (s : σ) : Except Error (Option α) × σ :=
  let s := env.Printf ("\n" ++ var.FullName ++ "\n") s
  let s := if var.Description ≠ "" then
    env.Printf ("  " ++ var.Description ++ "\n") s else s
  let helpText := ["type: " ++ var.VarType, "example value: " ++ var.ExampleValue]
  let helpText := if var.Default.isSome then
    helpText ++ ["default: " ++ env.Sprint var.Default] else helpText
  let s := env.Printf ("  (" ++ ", ".intercalate helpText ++ ")\n") s
  let s := env.Printf "\n" s
  match env.PromptUserForInput "  Enter a value" s with
  | (.error err, s) => (.error err, s)
  | (.ok value, s) =>
    if value = "" then (.ok var.Default, s)
    else (env.ParseYamlString value, s)

/-- Get a value for the given variable: from the command line options, the default of
the config, or the user. -/
def getVariable (env : Env α σ) (var : Variable α) (opts : BoilerplateOptions α)
    (s : σ) : Except Error (Option α) × σ :=
  match getVariableFromVars var opts with
  | some valueFromVars => (.ok valueFromVars, s)
  | none =>
    if opts.NonInteractive && var.Default.isSome then
      (.ok var.Default, s)
    else if opts.NonInteractive then
      (.error (Error.MissingVariableWithNonInteractiveMode var.FullName), s)
    else
      getVariableFromUser env var opts s

end Policy

/-! ## The resolver, the catalog builder and the driver -/

section Resolver

variable {α σ : Type}

/-- Resolve one variable to its raw value: the depth guard, the lookup of the variable
and of its reference among the values already resolved, the recursion into the
referenced variable, and otherwise the value-source policy. The depth only grows from
a value of at most `MaxReferenceDepth`, so Go's `int` never overflows here. -/
def getValueForVariable (env : Env α σ) (var : Variable α)
    (variablesInConfig : GoMap (Variable α)) (valuesForPreviousVariables : GoMap (Value α))
    (opts : BoilerplateOptions α) (referenceDepth : Int) (s : σ) :
    Except Error (Value α) × σ :=
  if referenceDepth > MaxReferenceDepth then
    (.error (Error.CyclicalReference var.Name var.Reference), s)
  else
    match valuesForPreviousVariables.get? var.Name with
    | some value => (.ok value, s)
    | none =>
      if var.Reference ≠ "" then
        match valuesForPreviousVariables.get? var.Reference with
        | some value => (.ok value, s)
        | none =>
          match variablesInConfig.get? var.Reference with
          | none => (.error (Error.MissingReference var.Name var.Reference), s)
          | some reference =>
            getValueForVariable env reference variablesInConfig valuesForPreviousVariables
              opts (referenceDepth + 1) s
      else
        match getVariable env var opts s with
        | (.ok value, s) => (.ok (Value.data value), s)
        | (.error err, s) => (.error err, s)
termination_by (MaxReferenceDepth + 1 - referenceDepth).toNat
decreasing_by
  simp only [MaxReferenceDepth] at *
  omega

/-- The same body run with a budget of invocations: `none` when the budget is used up
before a result is returned. -/
def getValueForVariableFuel (env : Env α σ) (variablesInConfig : GoMap (Variable α))
    (valuesForPreviousVariables : GoMap (Value α)) (opts : BoilerplateOptions α) :
    Nat → Variable α → Int → σ → Option (Except Error (Value α) × σ)
  | 0, _, _, _ => none
  | fuel + 1, var, referenceDepth, s =>
    if referenceDepth > MaxReferenceDepth then
      some (.error (Error.CyclicalReference var.Name var.Reference), s)
    else
      match valuesForPreviousVariables.get? var.Name with
      | some value => some (.ok value, s)
      | none =>
        if var.Reference ≠ "" then
          match valuesForPreviousVariables.get? var.Reference with
          | some value => some (.ok value, s)
          | none =>
            match variablesInConfig.get? var.Reference with
            | none => some (.error (Error.MissingReference var.Name var.Reference), s)
            | some reference =>
              getValueForVariableFuel env variablesInConfig valuesForPreviousVariables opts
                fuel reference (referenceDepth + 1) s
        else
          match getVariable env var opts s with
          | (.ok value, s) => some (.ok (Value.data value), s)
          | (.error err, s) => some (.error err, s)

/-- Get all the variables defined in the given config and its dependencies. -/
def getAllVariablesInConfig (boilerplateConfig : BoilerplateConfig α) : GoMap (Variable α) :=
  let allVariables :=
    boilerplateConfig.Variables.foldl (fun m var => m.set var.Name var) GoMap.empty
  boilerplateConfig.Dependencies.foldl
    (fun m dependency =>
      dependency.GetNamespacedVariables.foldl (fun m var => m.set var.Name var) m)
    allVariables

/-- Lines 19 to 45 of `GetVariables`: the map seeded with the command line options and
then with the three synthetic entries. -/
def initialVars (opts : BoilerplateOptions α)
    (boilerplateConfig rootBoilerplateConfig : BoilerplateConfig α) (thisDep : Dependency α) :
    GoMap (Value α) :=
  let vars := opts.Vars.entries.foldl (fun vars e => vars.set e.1 (Value.data e.2)) GoMap.empty
  let rootConfigVars :=
    rootBoilerplateConfig.Variables.foldl (fun m configVar => m.set configVar.Name configVar)
      GoMap.empty
  let vars := vars.set "BoilerplateConfigVars" (Value.configVars rootConfigVars)
  let rootConfigDeps :=
    rootBoilerplateConfig.Dependencies.foldl (fun m dep => m.set dep.Name dep) GoMap.empty
  let vars := vars.set "BoilerplateConfigDeps" (Value.configDeps rootConfigDeps)
  vars.set "This" (Value.thisTemplateProps boilerplateConfig opts thisDep)

/-- The first loop of `GetVariables` (lines 49 to 55), over the catalog's variables in the
order `order`. -/
def firstLoop (env : Env α σ) (variablesInConfig : GoMap (Variable α))
    (opts : BoilerplateOptions α) :
    List (Variable α) → GoMap (Value α) → σ → Except Error (GoMap (Value α)) × σ
  | [], vars, s => (.ok vars, s)
  | var :: order, vars, s =>
    match getValueForVariable env var variablesInConfig vars opts 0 s with
    | (.error err, s) => (.error err, s)
    | (.ok unmarshalled, s) =>
      firstLoop env variablesInConfig opts order (vars.set var.Name unmarshalled) s

/-- The second loop of `GetVariables` (lines 59 to 73). A key the map lacks reads as
`nil`. -/
def secondLoop (env : Env α σ) (opts : BoilerplateOptions α) :
    List (Variable α) → GoMap (Value α) → Except Error (GoMap (Value α))
  | [], vars => .ok vars
  | var :: order, vars =>
    let rawValue := (vars.get? var.Name).getD (Value.data none)
    match env.RenderVariable rawValue vars opts with
    | .error err => .error err
    | .ok renderedValue =>
      match env.ConvertType renderedValue var with
      | .error err => .error err
      | .ok renderedValueWithType =>
        secondLoop env opts order (vars.set var.Name renderedValueWithType)

/-- The first loop with the resolver run on a budget of 22 invocations for each variable:
`none` when some budget is used up. -/
def firstLoopFuel (env : Env α σ) (variablesInConfig : GoMap (Variable α))
    (opts : BoilerplateOptions α) :
    List (Variable α) → GoMap (Value α) → σ → Option (Except Error (GoMap (Value α)) × σ)
  | [], vars, s => some (.ok vars, s)
  | var :: order, vars, s =>
    match getValueForVariableFuel env variablesInConfig vars opts 22 var 0 s with
    | none => none
    | some (.error err, s) => some (.error err, s)
    | some (.ok unmarshalled, s) =>
      firstLoopFuel env variablesInConfig opts order (vars.set var.Name unmarshalled) s

/-- Phase 1 of `GetVariables` (lines 19 to 55): the map of raw values, or the error of the
first variable that fails. -/
def GetVariablesPhase1 (env : Env α σ) (opts : BoilerplateOptions α)
    (boilerplateConfig rootBoilerplateConfig : BoilerplateConfig α) (thisDep : Dependency α)
    (order : List (Variable α)) (s : σ) : Except Error (GoMap (Value α)) × σ :=
  firstLoop env (getAllVariablesInConfig boilerplateConfig) opts order
    (initialVars opts boilerplateConfig rootBoilerplateConfig thisDep) s

/-- Get a value for each of the variables specified in `boilerplateConfig`. The lists
`order1` and `order2` are the orders in which the two loops range over the catalog. -/
def GetVariables (env : Env α σ) (opts : BoilerplateOptions α)
    (boilerplateConfig rootBoilerplateConfig : BoilerplateConfig α) (thisDep : Dependency α)
    (order1 order2 : List (Variable α)) (s : σ) : Except Error (GoMap (Value α)) × σ :=
  match GetVariablesPhase1 env opts boilerplateConfig rootBoilerplateConfig thisDep order1 s with
  | (.error err, s) => (.error err, s)
  | (.ok vars, s) => (secondLoop env opts order2 vars, s)

end Resolver

/-! ## Reference chains -/

/-- The variables `var :: rest` form a reference chain of the catalog: each of them but
the last declares a reference, which is the name of the next one, and the catalog holds
the next one under that name. -/
def IsReferenceChain {α : Type} (catalog : GoMap (Variable α)) :
    Variable α → List (Variable α) → Prop
  | _, [] => True
  | var, next :: rest =>
    var.Reference ≠ "" ∧ var.Reference = next.Name ∧ catalog.get? next.Name = some next ∧
      IsReferenceChain catalog next rest

/-- The value that resolution assigns to a variable in non-interactive mode, relative to
the map `init` the first loop starts from, with no bound on the depth: the entry of `init`
under the name of the variable, else the entry under its reference, else the value of the
referenced variable, else (no reference) its override or its non-nil default. -/
inductive Resolves {α : Type} (catalog : GoMap (Variable α)) (init : GoMap (Value α))
    (opts : BoilerplateOptions α) : Variable α → Value α → Prop where
  | memo (v : Variable α) (x : Value α) (h : init.get? v.Name = some x) :
      Resolves catalog init opts v x
  | referenceMemo (v : Variable α) (x : Value α) (hv : init.get? v.Name = none)
      (hr : v.Reference ≠ "") (hx : init.get? v.Reference = some x) :
      Resolves catalog init opts v x
  | follow (v w : Variable α) (x : Value α) (hv : init.get? v.Name = none)
      (hr : v.Reference ≠ "") (hx : init.get? v.Reference = none)
      (hc : catalog.get? v.Reference = some w) (hw : Resolves catalog init opts w x) :
      Resolves catalog init opts v x
  | direct (v : Variable α) (y : Option α) (hv : init.get? v.Name = none)
      (hr : v.Reference = "")
      (hy : opts.Vars.get? v.Name = some y ∨
        (opts.Vars.get? v.Name = none ∧ v.Default = y ∧ y ≠ none)) :
      Resolves catalog init opts v (Value.data y)

/-- The map `vars` extends `init` only by resolved values of catalog variables: it keeps
every entry of `init`, and each of its entries is an entry of `init` or the value resolution
assigns to the catalog variable of that name. -/
def Consistent {α : Type} (catalog : GoMap (Variable α)) (init : GoMap (Value α))
    (opts : BoilerplateOptions α) (vars : GoMap (Value α)) : Prop :=
  (∀ k x, init.get? k = some x → vars.get? k = some x) ∧
  (∀ k x, vars.get? k = some x →
    init.get? k = some x ∨
      (init.get? k = none ∧ ∃ w, catalog.get? k = some w ∧ Resolves catalog init opts w x))

/-! ## Instrumented loops -/

/-- The calls of the renderer made by the second loop, in order: the raw value and the map
passed to `render.RenderVariable` at each call. -/
def secondLoopRenderCalls {α σ : Type} (env : Env α σ) (opts : BoilerplateOptions α) :
    List (Variable α) → GoMap (Value α) → List (Value α × GoMap (Value α))
  | [], _ => []
  | var :: order, vars =>
    let rawValue := (vars.get? var.Name).getD (Value.data none)
    (rawValue, vars) ::
      match env.RenderVariable rawValue vars opts with
      | .error _ => []
      | .ok renderedValue =>
        match env.ConvertType renderedValue var with
        | .error _ => []
        | .ok renderedValueWithType =>
          secondLoopRenderCalls env opts order (vars.set var.Name renderedValueWithType)

/-- The resolver on a budget of invocations, instrumented: next to its result, the
variables on which it invoked `getVariable`, in order. -/
def getValueForVariableTraced {α σ : Type} (env : Env α σ)
    (variablesInConfig : GoMap (Variable α)) (valuesForPreviousVariables : GoMap (Value α))
    (opts : BoilerplateOptions α) :
    Nat → Variable α → Int → σ → Option ((Except Error (Value α) × σ) × List (Variable α))
  | 0, _, _, _ => none
  | fuel + 1, var, referenceDepth, s =>
    if referenceDepth > MaxReferenceDepth then
      some ((.error (Error.CyclicalReference var.Name var.Reference), s), [])
    else
      match valuesForPreviousVariables.get? var.Name with
      | some value => some ((.ok value, s), [])
      | none =>
        if var.Reference ≠ "" then
          match valuesForPreviousVariables.get? var.Reference with
          | some value => some ((.ok value, s), [])
          | none =>
            match variablesInConfig.get? var.Reference with
            | none => some ((.error (Error.MissingReference var.Name var.Reference), s), [])
            | some reference =>
              getValueForVariableTraced env variablesInConfig valuesForPreviousVariables opts
                fuel reference (referenceDepth + 1) s
        else
          match getVariable env var opts s with
          | (.ok value, s) => some ((.ok (Value.data value), s), [var])
          | (.error err, s) => some ((.error err, s), [var])

/-- The first loop, instrumented: next to its result, the variables on which `getVariable`
was invoked during the whole loop, in order. -/
def firstLoopTraced {α σ : Type} (env : Env α σ) (variablesInConfig : GoMap (Variable α))
    (opts : BoilerplateOptions α) :
    List (Variable α) → GoMap (Value α) → σ →
      Option ((Except Error (GoMap (Value α)) × σ) × List (Variable α))
  | [], vars, s => some ((.ok vars, s), [])
  | var :: order, vars, s =>
    match getValueForVariableTraced env variablesInConfig vars opts 22 var 0 s with
    | none => none
    | some ((.error err, s), calls) => some ((.error err, s), calls)
    | some ((.ok unmarshalled, s), calls) =>
      match firstLoopTraced env variablesInConfig opts order
        (vars.set var.Name unmarshalled) s with
      | none => none
      | some (result, later) => some (result, calls ++ later)

/-! ## Definitions that follow the specification -/

/-- The sequence in which `getAllVariablesInConfig` writes the catalog: the local variables
in declaration order, then the namespaced variables of each dependency, the dependencies
in declaration order. -/
def catalogSequence {α : Type} (boilerplateConfig : BoilerplateConfig α) : List (Variable α) :=
  boilerplateConfig.Variables ++
    boilerplateConfig.Dependencies.flatMap (fun dependency => dependency.GetNamespacedVariables)

/-- The resolver as section 4.2 of the specification words it: first the lookup of the
variable among the values already resolved, second the depth guard, then the reference
(short-circuit, catalog lookup, recursion) and otherwise the value-source policy. -/
def resolveSpec {α σ : Type} (env : Env α σ) (var : Variable α)
    (catalog : GoMap (Variable α)) (alreadyResolved : GoMap (Value α))
    (opts : BoilerplateOptions α) (depth : Int) (s : σ) : Except Error (Value α) × σ :=
  match alreadyResolved.get? var.Name with
  | some value => (.ok value, s)
  | none =>
    if depth > MaxReferenceDepth then
      (.error (Error.CyclicalReference var.Name var.Reference), s)
    else if var.Reference ≠ "" then
      match alreadyResolved.get? var.Reference with
      | some value => (.ok value, s)
      | none =>
        match catalog.get? var.Reference with
        | none => (.error (Error.MissingReference var.Name var.Reference), s)
        | some reference => resolveSpec env reference catalog alreadyResolved opts (depth + 1) s
    else
      match getVariable env var opts s with
      | (.ok value, s) => (.ok (Value.data value), s)
      | (.error err, s) => (.error err, s)
termination_by (MaxReferenceDepth + 1 - depth).toNat
decreasing_by
  simp only [MaxReferenceDepth] at *
  omega

/-- The world state at the moment `getVariableFromUser` prompts: after it has printed the
banner, the description and the help text of the variable. -/
def promptState {α σ : Type} (env : Env α σ) (var : Variable α) (s : σ) : σ :=
  let s := env.Printf ("\n" ++ var.FullName ++ "\n") s
  let s := if var.Description ≠ "" then
    env.Printf ("  " ++ var.Description ++ "\n") s else s
  let helpText := ["type: " ++ var.VarType, "example value: " ++ var.ExampleValue]
  let helpText := if var.Default.isSome then
    helpText ++ ["default: " ++ env.Sprint var.Default] else helpText
  let s := env.Printf ("  (" ++ ", ".intercalate helpText ++ ")\n") s
  env.Printf "\n" s

/-! ## Concrete inputs -/

/-- Collaborators for the examples: the world state is the list of lines still to be typed,
the parser returns the line as a string, rendering and conversion are the identity. -/
def scriptedEnv : Env String (List String) where
  PromptUserForInput := fun _ s =>
    match s with
    | [] => (.error (Error.collaborator "EOF"), [])
    | line :: rest => (.ok line, rest)
  ParseYamlString := fun text => .ok (some text)
  RenderVariable := fun rawValue _ _ => .ok rawValue
  ConvertType := fun renderedValue _ => .ok renderedValue
  Printf := fun _ s => s
  Sprint := fun x => x.getD "nil"

/-- A string variable named `name` with the given default and reference. -/
def mkVariable (name : String) (default : Option String) (reference : String) :
    Variable String :=
  ⟨name, name, "", "string", "", default, reference⟩

/-- Options with the given command line values. -/
def mkOptions (vars : List (String × Option String)) (nonInteractive : Bool) :
    BoilerplateOptions String :=
  ⟨vars.foldl (fun m e => m.set e.1 e.2) GoMap.empty, nonInteractive⟩

/-- The variable `a`: no reference, default `"D"`. -/
def varA : Variable String := mkVariable "a" (some "D") ""

/-- The variable `b`: it references `a` and has no default. -/
def varB : Variable String := mkVariable "b" none "a"

/-- The variable `c`: it references `z`, a name that no variable has. -/
def varC : Variable String := mkVariable "c" none "z"

/-- A configuration that declares `a`, `b` and `c`. -/
def configABC : BoilerplateConfig String := ⟨[varA, varB, varC], []⟩

/-- Two variables that reference each other. -/
def cyclePair : Fin 2 → Variable String
  | 0 => mkVariable "p" (some "D") "q"
  | 1 => mkVariable "q" (some "D") "p"

/-- A configuration that declares the two variables of `cyclePair`. -/
def configCycle : BoilerplateConfig String := ⟨[cyclePair 0, cyclePair 1], []⟩

/-- A configuration that declares `a` and `b`. -/
def configAB : BoilerplateConfig String := ⟨[varA, varB], []⟩

/-- A configuration whose only variable is named like the synthetic entry `This`. -/
def configThis : BoilerplateConfig String := ⟨[mkVariable "This" (some "D") ""], []⟩

/-- A dependency with no variables. -/
def noDependency : Dependency String := ⟨"", []⟩

/-- The raw values of `configAB` without command line values, `a` resolved before `b`. -/
def rawValuesAB : GoMap (Value String) :=
  ((initialVars (mkOptions [] true) configAB configAB noDependency).set "a"
    (Value.data (some "D"))).set "b" (Value.data (some "D"))

/-- The raw values of `configAB` without command line values, `b` resolved before `a`. -/
def rawValuesBA : GoMap (Value String) :=
  ((initialVars (mkOptions [] true) configAB configAB noDependency).set "b"
    (Value.data (some "D"))).set "a" (Value.data (some "D"))

/-- The raw values of `configAB` with the command line value `"X"` for `b`. -/
def rawValuesOverride : GoMap (Value String) :=
  ((initialVars (mkOptions [("b", some "X")] true) configAB configAB noDependency).set "a"
    (Value.data (some "D"))).set "b" (Value.data (some "X"))

/-- The dependency `dep`, which exposes `dep.x` and a second variable named `a`. -/
def depWithA : Dependency String :=
  ⟨"dep", [mkVariable "dep.x" (some "1") "", mkVariable "a" (some "2") "dep.x"]⟩

/-- A configuration whose local variable `a` collides with a variable of its dependency. -/
def configCollision : BoilerplateConfig String := ⟨[varA, varB], [depWithA]⟩

/-- Collaborators whose prompt always fails, over a trivial world state. -/
def closedInputEnv : Env String Unit where
  PromptUserForInput := fun _ _ => (.error (Error.collaborator "closed input"), ())
  ParseYamlString := fun _ => .error (Error.collaborator "no parser")
  RenderVariable := fun rawValue _ _ => .ok rawValue
  ConvertType := fun renderedValue _ => .ok renderedValue
  Printf := fun _ s => s
  Sprint := fun _ => ""

/-- Collaborators with a renderer that reads the map: the raw value `"tmpl"` renders to the
entry the map holds under `a`, any other string renders to itself followed by `!`. -/
def templateEnv : Env String (List String) where
  PromptUserForInput := fun _ s => (.error (Error.collaborator "EOF"), s)
  ParseYamlString := fun text => .ok (some text)
  RenderVariable := fun rawValue vars _ =>
    match rawValue with
    | Value.data (some text) =>
      if text = "tmpl" then .ok ((vars.get? "a").getD (Value.data none))
      else .ok (Value.data (some (text ++ "!")))
    | other => .ok other
  ConvertType := fun renderedValue _ => .ok renderedValue
  Printf := fun _ s => s
  Sprint := fun x => x.getD "nil"

/-- The variable `a` with the default `"x"`. -/
def varX : Variable String := mkVariable "a" (some "x") ""

/-- The variable `t`, whose default is the template `"tmpl"`. -/
def varT : Variable String := mkVariable "t" (some "tmpl") ""

/-- A configuration that declares `a` and the template `t`. -/
def configTemplate : BoilerplateConfig String := ⟨[varX, varT], []⟩

/-- The raw values of `configTemplate` after Phase 1. -/
def rawValuesTemplate : GoMap (Value String) :=
  ((initialVars (mkOptions [] true) configTemplate configTemplate noDependency).set "a"
    (Value.data (some "x"))).set "t" (Value.data (some "tmpl"))

/-- Collaborators with a renderer that substitutes references and leaves every other value
alone: the raw value `"$c"` renders to the entry the map holds under `c`, the raw value
`"$a"` to the entry under `a`. -/
def substEnv : Env String (List String) where
  PromptUserForInput := fun _ s => (.error (Error.collaborator "EOF"), s)
  ParseYamlString := fun text => .ok (some text)
  RenderVariable := fun rawValue vars _ =>
    match rawValue with
    | Value.data (some text) =>
      if text = "$c" then .ok ((vars.get? "c").getD (Value.data none))
      else if text = "$a" then .ok ((vars.get? "a").getD (Value.data none))
      else .ok rawValue
    | other => .ok other
  ConvertType := fun renderedValue _ => .ok renderedValue
  Printf := fun _ s => s
  Sprint := fun x => x.getD "nil"

/-- The variable `c` with the plain default `"x"`. -/
def plainC : Variable String := mkVariable "c" (some "x") ""

/-- The variable `a`, whose default is the template `"$c"`. -/
def templateA : Variable String := mkVariable "a" (some "$c") ""

/-- The variable `t`, whose default is the template `"$a"`. -/
def templateT : Variable String := mkVariable "t" (some "$a") ""

/-- A configuration in which `t` refers to `a` and `a` refers to `c` in their templates. -/
def configNested : BoilerplateConfig String := ⟨[plainC, templateA, templateT], []⟩

/-- The raw values of `configNested` after Phase 1. -/
def rawValuesNested : GoMap (Value String) :=
  (((initialVars (mkOptions [] true) configNested configNested noDependency).set "c"
    (Value.data (some "x"))).set "a" (Value.data (some "$c"))).set "t"
      (Value.data (some "$a"))

/-! ## Properties of the value-source policy -/

section PolicyProofs

variable {α σ : Type}

theorem find?_eq_lookupEntry {β : Type} (l : List (String × β)) (k : String) :
    (l.find? (fun e => decide (e.1 = k))).map Prod.snd = lookupEntry l k := by
  induction l with
  | nil => rfl
  | cons hd tl ih =>
    obtain ⟨k', v⟩ := hd
    by_cases h : k' = k
    · simp [List.find?, lookupEntry, h]
    · simpa [List.find?, lookupEntry, h] using ih

theorem getVariableFromVars_eq (var : Variable α) (opts : BoilerplateOptions α) :
    getVariableFromVars var opts = opts.Vars.get? var.Name := by
  unfold getVariableFromVars GoMap.get?
  rw [← find?_eq_lookupEntry]
  cases opts.Vars.entries.find? (fun e => decide (e.1 = var.Name)) <;> rfl

theorem getVariable_of_vars (env : Env α σ) (var : Variable α) (opts : BoilerplateOptions α)
    (s : σ) (x : Option α) (h : opts.Vars.get? var.Name = some x) :
    getVariable env var opts s = (.ok x, s) := by
  unfold getVariable
  rw [getVariableFromVars_eq, h]

theorem getVariable_of_default (env : Env α σ) (var : Variable α)
    (opts : BoilerplateOptions α) (s : σ) (hni : opts.NonInteractive = true)
    (hvars : opts.Vars.get? var.Name = none) (hdef : var.Default ≠ none) :
    getVariable env var opts s = (.ok var.Default, s) := by
  unfold getVariable
  rw [getVariableFromVars_eq, hvars]
  have hsome : var.Default.isSome = true := Option.isSome_iff_ne_none.2 hdef
  simp [hni, hsome]

/-- C6. When the command line options hold an entry under the name of the variable,
`getVariable` returns that entry with no error and leaves the terminal untouched, whatever
the non-interactive flag, the default of the variable and the collaborators are. -/
theorem getVariable_override (env : Env α σ) (var : Variable α) (opts : BoilerplateOptions α)
    (s : σ) (x : Option α) (h : opts.Vars.get? var.Name = some x) :
    getVariable env var opts s = (.ok x, s) :=
  getVariable_of_vars env var opts s x h

/-- C6 at a concrete input: the override `"X"` wins over the default `"D"` in interactive mode,
and the line waiting to be typed is not read. -/
theorem getVariable_override_witness :
    getVariable scriptedEnv (mkVariable "a" (some "D") "") (mkOptions [("a", some "X")] false)
      ["typed"] = (.ok (some "X"), ["typed"]) :=
  getVariable_override scriptedEnv (mkVariable "a" (some "D") "")
    (mkOptions [("a", some "X")] false) ["typed"] (some "X") (by decide)

/-- C7. In non-interactive mode, a variable with a non-nil default and no entry in the
command line options resolves to its default with no error. -/
theorem getVariable_default (env : Env α σ) (var : Variable α) (opts : BoilerplateOptions α)
    (s : σ) (hni : opts.NonInteractive = true) (hvars : opts.Vars.get? var.Name = none)
    (hdef : var.Default ≠ none) :
    getVariable env var opts s = (.ok var.Default, s) :=
  getVariable_of_default env var opts s hni hvars hdef

/-- C7 at a concrete input: with a command line value for another name only, `a` resolves to its
default. -/
theorem getVariable_default_witness :
    getVariable scriptedEnv (mkVariable "a" (some "D") "") (mkOptions [("b", some "X")] true)
      [] = (.ok (some "D"), []) :=
  getVariable_default scriptedEnv (mkVariable "a" (some "D") "")
    (mkOptions [("b", some "X")] true) [] rfl (by decide) (by decide)

/-- C8. In non-interactive mode `getVariable` fails exactly when the command line options
have no entry under the name of the variable and its default is nil, and every failure is
`MissingVariableWithNonInteractiveMode` carrying the full name of the variable. -/
theorem getVariable_nonInteractive_error_iff (env : Env α σ) (var : Variable α)
    (opts : BoilerplateOptions α) (s : σ) (hni : opts.NonInteractive = true) :
    ((∃ err, (getVariable env var opts s).1 = .error err) ↔
        (opts.Vars.get? var.Name = none ∧ var.Default = none)) ∧
      ∀ err, (getVariable env var opts s).1 = .error err →
        err = Error.MissingVariableWithNonInteractiveMode var.FullName := by
  unfold getVariable
  rw [getVariableFromVars_eq]
  cases hv : opts.Vars.get? var.Name with
  | some x => simp
  | none =>
    cases hd : var.Default with
    | none => simp [hni]
    | some d => simp [hni]

/-- C8 at a concrete input: a variable with no default and no command line value. -/
theorem getVariable_nonInteractive_error_iff_witness :
    ((∃ err, (getVariable scriptedEnv (mkVariable "a" none "") (mkOptions [] true) []).1
          = .error err) ↔
        ((mkOptions [] true).Vars.get? (mkVariable "a" none "").Name = none ∧
          (mkVariable "a" none "").Default = none)) ∧
      ∀ err, (getVariable scriptedEnv (mkVariable "a" none "") (mkOptions [] true) []).1
          = .error err →
        err = Error.MissingVariableWithNonInteractiveMode (mkVariable "a" none "").FullName :=
  getVariable_nonInteractive_error_iff scriptedEnv (mkVariable "a" none "")
    (mkOptions [] true) [] rfl

end PolicyProofs

/-! ## Properties of Go maps -/

theorem lookupEntry_setEntry {β : Type} (l : List (String × β)) (k : String) (v : β)
    (k' : String) :
    lookupEntry (setEntry l k v) k' = if k' = k then some v else lookupEntry l k' := by
  induction l with
  | nil =>
    by_cases h : k' = k
    · simp [setEntry, lookupEntry, h]
    · have h' : ¬ k = k' := fun e => h e.symm
      simp [setEntry, lookupEntry, h, h']
  | cons hd tl ih =>
    obtain ⟨k0, v0⟩ := hd
    by_cases h0 : k0 = k
    · subst h0
      by_cases h : k' = k0
      · subst h; simp [setEntry, lookupEntry]
      · have h' : ¬ k0 = k' := fun e => h e.symm
        simp [setEntry, lookupEntry, h, h']
    · by_cases h : k0 = k'
      · subst h
        have h' : ¬ k0 = k := h0
        simp [setEntry, lookupEntry, h0]
      · simp [setEntry, lookupEntry, h0, h, ih]

theorem GoMap.get?_set {β : Type} (m : GoMap β) (k : String) (v : β) (k' : String) :
    (m.set k v).get? k' = if k' = k then some v else m.get? k' :=
  lookupEntry_setEntry m.entries k v k'

theorem GoMap.get?_set_self {β : Type} (m : GoMap β) (k : String) (v : β) :
    (m.set k v).get? k = some v := by
  simp [GoMap.get?_set]

theorem GoMap.get?_set_of_ne {β : Type} (m : GoMap β) (k : String) (v : β) (k' : String)
    (h : k' ≠ k) : (m.set k v).get? k' = m.get? k' := by
  simp [GoMap.get?_set, h]

theorem GoMap.get?_empty {β : Type} (k : String) : (GoMap.empty : GoMap β).get? k = none := rfl

/-! ## Properties of the resolver -/

section ResolverProofs

variable {α σ : Type}

theorem getValueForVariable_depth (env : Env α σ) (var : Variable α)
    (catalog : GoMap (Variable α)) (vals : GoMap (Value α)) (opts : BoilerplateOptions α)
    (depth : Int) (s : σ) (hd : depth > MaxReferenceDepth) :
    getValueForVariable env var catalog vals opts depth s
      = (.error (Error.CyclicalReference var.Name var.Reference), s) := by
  rw [getValueForVariable, if_pos hd]

theorem getValueForVariable_memo (env : Env α σ) (var : Variable α)
    (catalog : GoMap (Variable α)) (vals : GoMap (Value α)) (opts : BoilerplateOptions α)
    (depth : Int) (s : σ) (x : Value α) (hd : depth ≤ MaxReferenceDepth)
    (hx : vals.get? var.Name = some x) :
    getValueForVariable env var catalog vals opts depth s = (.ok x, s) := by
  rw [getValueForVariable, if_neg (not_lt.2 hd)]
  simp [hx]

theorem getValueForVariable_reference_memo (env : Env α σ) (var : Variable α)
    (catalog : GoMap (Variable α)) (vals : GoMap (Value α)) (opts : BoilerplateOptions α)
    (depth : Int) (s : σ) (x : Value α) (hd : depth ≤ MaxReferenceDepth)
    (hv : vals.get? var.Name = none) (hr : var.Reference ≠ "")
    (hx : vals.get? var.Reference = some x) :
    getValueForVariable env var catalog vals opts depth s = (.ok x, s) := by
  rw [getValueForVariable, if_neg (not_lt.2 hd)]
  simp [hv, hr, hx]

theorem getValueForVariable_missing (env : Env α σ) (var : Variable α)
    (catalog : GoMap (Variable α)) (vals : GoMap (Value α)) (opts : BoilerplateOptions α)
    (depth : Int) (s : σ) (hd : depth ≤ MaxReferenceDepth)
    (hv : vals.get? var.Name = none) (hr : var.Reference ≠ "")
    (hx : vals.get? var.Reference = none) (hc : catalog.get? var.Reference = none) :
    getValueForVariable env var catalog vals opts depth s
      = (.error (Error.MissingReference var.Name var.Reference), s) := by
  rw [getValueForVariable, if_neg (not_lt.2 hd)]
  simp [hv, hr, hx, hc]

theorem getValueForVariable_follow (env : Env α σ) (var reference : Variable α)
    (catalog : GoMap (Variable α)) (vals : GoMap (Value α)) (opts : BoilerplateOptions α)
    (depth : Int) (s : σ) (hd : depth ≤ MaxReferenceDepth)
    (hv : vals.get? var.Name = none) (hr : var.Reference ≠ "")
    (hx : vals.get? var.Reference = none) (hc : catalog.get? var.Reference = some reference) :
    getValueForVariable env var catalog vals opts depth s
      = getValueForVariable env reference catalog vals opts (depth + 1) s := by
  rw [getValueForVariable, if_neg (not_lt.2 hd)]
  simp [hv, hr, hx, hc]

theorem getValueForVariable_direct (env : Env α σ) (var : Variable α)
    (catalog : GoMap (Variable α)) (vals : GoMap (Value α)) (opts : BoilerplateOptions α)
    (depth : Int) (s : σ) (hd : depth ≤ MaxReferenceDepth)
    (hv : vals.get? var.Name = none) (hr : var.Reference = "") :
    getValueForVariable env var catalog vals opts depth s
      = match getVariable env var opts s with
        | (.ok value, s) => (.ok (Value.data value), s)
        | (.error err, s) => (.error err, s) := by
  rw [getValueForVariable, if_neg (not_lt.2 hd)]
  simp [hv, hr]

theorem getValueForVariableFuel_eq (env : Env α σ) (catalog : GoMap (Variable α))
    (vals : GoMap (Value α)) (opts : BoilerplateOptions α) (fuel : Nat) :
    ∀ (var : Variable α) (depth : Int) (s : σ),
      (MaxReferenceDepth + 1 - depth).toNat < fuel →
      getValueForVariableFuel env catalog vals opts fuel var depth s
        = some (getValueForVariable env var catalog vals opts depth s) := by
  induction fuel with
  | zero => intro var depth s h; omega
  | succ fuel ih =>
    intro var depth s h
    rw [getValueForVariable, getValueForVariableFuel]
    by_cases hd : depth > MaxReferenceDepth
    · rw [if_pos hd, if_pos hd]
    · rw [if_neg hd, if_neg hd]
      cases hv : vals.get? var.Name with
      | some x => rfl
      | none =>
        by_cases hr : var.Reference = ""
        · simp only [hr, ne_eq, not_true_eq_false, if_false]
          rcases getVariable env var opts s with ⟨r, s1⟩
          cases r <;> rfl
        · simp only [hr, ne_eq, not_false_eq_true, if_true]
          cases hx : vals.get? var.Reference with
          | some x => rfl
          | none =>
            cases hc : catalog.get? var.Reference with
            | none => rfl
            | some reference =>
              simp only []
              apply ih
              simp only [MaxReferenceDepth] at *
              omega

/-- C3. `getValueForVariable` is total (it is defined by well-founded recursion on
`MaxReferenceDepth + 1 - referenceDepth`), and for every catalog, every map of resolved
values, every options value and every starting depth a budget of
`MaxReferenceDepth + 1 - referenceDepth + 1` invocations is enough to return its result;
at depth 0 that is 22 invocations, the first call and at most 21 recursive ones. -/
theorem getValueForVariable_terminates (env : Env α σ) (var : Variable α)
    (catalog : GoMap (Variable α)) (vals : GoMap (Value α)) (opts : BoilerplateOptions α)
    (depth : Int) (s : σ) :
    getValueForVariableFuel env catalog vals opts
        ((MaxReferenceDepth + 1 - depth).toNat + 1) var depth s
      = some (getValueForVariable env var catalog vals opts depth s) ∧
    getValueForVariableFuel env catalog vals opts (21 + 1) var 0 s
      = some (getValueForVariable env var catalog vals opts 0 s) :=
  ⟨getValueForVariableFuel_eq env catalog vals opts _ var depth s (Nat.lt_succ_self _),
    getValueForVariableFuel_eq env catalog vals opts _ var 0 s (by decide)⟩

theorem chain_descend (env : Env α σ) (catalog : GoMap (Variable α))
    (vals : GoMap (Value α)) (opts : BoilerplateOptions α) (s : σ) :
    ∀ (rest : List (Variable α)) (v0 terminal : Variable α) (d : Nat),
      IsReferenceChain catalog v0 rest →
      (∀ v ∈ v0 :: rest, vals.get? v.Name = none) →
      d + rest.length ≤ 20 →
      (v0 :: rest).getLast? = some terminal →
      getValueForVariable env v0 catalog vals opts (d : Int) s
        = getValueForVariable env terminal catalog vals opts ((d + rest.length : Nat) : Int) s := by
  intro rest
  induction rest with
  | nil =>
    intro v0 terminal d _ _ _ hlast
    simp only [List.getLast?_singleton, Option.some.injEq] at hlast
    subst hlast
    simp
  | cons w rest ih =>
    intro v0 terminal d hchain hvals hlen hlast
    obtain ⟨hne, href, hcat, hrest⟩ := hchain
    simp only [List.length_cons] at hlen
    have hv0 : vals.get? v0.Name = none := hvals v0 (by simp)
    have hw : vals.get? w.Name = none := hvals w (by simp)
    have hd : (d : Int) ≤ MaxReferenceDepth := by
      simp only [MaxReferenceDepth]; omega
    rw [getValueForVariable_follow env v0 w catalog vals opts d s hd hv0 hne
      (by rw [href]; exact hw) (by rw [href]; exact hcat)]
    rw [List.getLast?_cons_cons] at hlast
    have := ih w terminal (d + 1) hrest (fun v hv => hvals v (List.mem_cons_of_mem _ hv))
      (by omega) hlast
    simp only [List.length_cons]
    have e1 : ((d + 1 : Nat) : Int) = (d : Int) + 1 := by push_cast; rfl
    have e2 : d + 1 + rest.length = d + (rest.length + 1) := by omega
    rw [e1, e2] at this
    exact this

theorem chain_exceed (env : Env α σ) (catalog : GoMap (Variable α))
    (vals : GoMap (Value α)) (opts : BoilerplateOptions α) (s : σ) :
    ∀ (rest : List (Variable α)) (v0 : Variable α) (d : Nat),
      IsReferenceChain catalog v0 rest →
      (∀ v ∈ v0 :: rest, vals.get? v.Name = none) →
      d ≤ 21 → 21 ≤ d + rest.length →
      ∃ w, (v0 :: rest)[21 - d]? = some w ∧
        getValueForVariable env v0 catalog vals opts (d : Int) s
          = (.error (Error.CyclicalReference w.Name w.Reference), s) := by
  intro rest
  induction rest with
  | nil =>
    intro v0 d _ _ h1 h2
    simp only [List.length_nil, Nat.add_zero] at h2
    have hd : d = 21 := by omega
    subst hd
    refine ⟨v0, by simp, ?_⟩
    exact getValueForVariable_depth env v0 catalog vals opts _ s (by decide)
  | cons w rest ih =>
    intro v0 d hchain hvals h1 h2
    by_cases hd21 : d = 21
    · subst hd21
      refine ⟨v0, by simp, ?_⟩
      exact getValueForVariable_depth env v0 catalog vals opts _ s (by decide)
    · obtain ⟨hne, href, hcat, hrest⟩ := hchain
      simp only [List.length_cons] at h2
      have hv0 : vals.get? v0.Name = none := hvals v0 (by simp)
      have hw : vals.get? w.Name = none := hvals w (by simp)
      have hd : (d : Int) ≤ MaxReferenceDepth := by
        simp only [MaxReferenceDepth]; omega
      obtain ⟨u, hu, hres⟩ := ih w (d + 1) hrest
        (fun v hv => hvals v (List.mem_cons_of_mem _ hv)) (by omega) (by omega)
      refine ⟨u, ?_, ?_⟩
      · have e : 21 - d = (21 - (d + 1)) + 1 := by omega
        rw [e, List.getElem?_cons_succ]
        exact hu
      · rw [getValueForVariable_follow env v0 w catalog vals opts d s hd hv0 hne
          (by rw [href]; exact hw) (by rw [href]; exact hcat)]
        have e1 : ((d + 1 : Nat) : Int) = (d : Int) + 1 := by push_cast; rfl
        rw [e1] at hres
        exact hres

/-- C1, as amended. In non-interactive mode, for a reference chain `v0 → v1 → … → vk` of
the catalog none of whose names is in the map of resolved values, and whose terminal `vk`
declares no reference and has the non-nil default `D`: when `k ≤ 20` and the command line
options have no entry under the name of `vk`, `getValueForVariable` at depth 0 returns `D`
with no error; when `k > 20` it returns the `CyclicalReference` error raised on `v21`. -/
theorem getValueForVariable_chain (env : Env α σ) (catalog : GoMap (Variable α))
    (vals : GoMap (Value α)) (opts : BoilerplateOptions α) (s : σ)
    (v0 terminal : Variable α) (rest : List (Variable α)) (D : α)
    (hni : opts.NonInteractive = true)
    (hchain : IsReferenceChain catalog v0 rest)
    (hvals : ∀ v ∈ v0 :: rest, vals.get? v.Name = none)
    (hlast : (v0 :: rest).getLast? = some terminal)
    (hterm : terminal.Reference = "" ∧ terminal.Default = some D) :
    (rest.length ≤ 20 → opts.Vars.get? terminal.Name = none →
      getValueForVariable env v0 catalog vals opts 0 s = (.ok (Value.data (some D)), s)) ∧
    (20 < rest.length →
      ∃ w, (v0 :: rest)[21]? = some w ∧
        getValueForVariable env v0 catalog vals opts 0 s
          = (.error (Error.CyclicalReference w.Name w.Reference), s)) := by
  constructor
  · intro hk hopt
    have h := chain_descend env catalog vals opts s rest v0 terminal 0
      hchain hvals (by omega) hlast
    simp only [Nat.cast_zero] at h
    rw [h]
    have hmem : terminal ∈ v0 :: rest := List.mem_of_getLast?_eq_some hlast
    rw [getValueForVariable_direct env terminal catalog vals opts _ s
      (by simp only [MaxReferenceDepth]; omega) (hvals terminal hmem) hterm.1]
    rw [getVariable_of_default env terminal opts s hni hopt (by rw [hterm.2]; simp)]
    simp [hterm.2]
  · intro hk
    have h := chain_exceed env catalog vals opts s rest v0 0
      hchain hvals (by omega) (by omega)
    simpa using h

theorem getValueForVariable_of_fuel (env : Env α σ) (var : Variable α)
    (catalog : GoMap (Variable α)) (vals : GoMap (Value α)) (opts : BoilerplateOptions α)
    (s : σ) (r : Except Error (Value α) × σ)
    (h : getValueForVariableFuel env catalog vals opts 22 var 0 s = some r) :
    getValueForVariable env var catalog vals opts 0 s = r := by
  rw [getValueForVariableFuel_eq env catalog vals opts 22 var 0 s (by decide)] at h
  exact Option.some.inj h

/-- C1, counterexample. The chain `b → a` has one hop, its terminal `a` has the default
`"D"` and no name of the chain is in the map of resolved values, yet in non-interactive
mode with the command line value `"X"` for `a` the resolver returns `"X"`, not `"D"`. -/
theorem getValueForVariable_chain_counterexample :
    (mkOptions [("a", some "X")] true).NonInteractive = true ∧
    IsReferenceChain (getAllVariablesInConfig configABC) varB [varA] ∧
    (∀ v ∈ [varB, varA], (GoMap.empty : GoMap (Value String)).get? v.Name = none) ∧
    (varA.Reference = "" ∧ varA.Default = some "D") ∧
    [varA].length ≤ 20 ∧
    getValueForVariable scriptedEnv varB (getAllVariablesInConfig configABC) GoMap.empty
        (mkOptions [("a", some "X")] true) 0 []
      = (.ok (Value.data (some "X")), []) ∧
    getValueForVariable scriptedEnv varB (getAllVariablesInConfig configABC) GoMap.empty
        (mkOptions [("a", some "X")] true) 0 []
      ≠ (.ok (Value.data (some "D")), []) := by
  have h := getValueForVariable_of_fuel scriptedEnv varB (getAllVariablesInConfig configABC)
    GoMap.empty (mkOptions [("a", some "X")] true) [] (.ok (Value.data (some "X")), [])
    (by decide)
  refine ⟨rfl, ⟨by decide, rfl, by decide, trivial⟩, by decide, ⟨rfl, rfl⟩, by decide, h, ?_⟩
  rw [h]
  decide

/-- C1 at a concrete input: the chain `b → a` with no command line values resolves `b` to the
default of `a`. -/
theorem getValueForVariable_chain_witness :
    getValueForVariable scriptedEnv varB (getAllVariablesInConfig configABC) GoMap.empty
        (mkOptions [] true) 0 []
      = (.ok (Value.data (some "D")), []) :=
  (getValueForVariable_chain scriptedEnv (getAllVariablesInConfig configABC) GoMap.empty
    (mkOptions [] true) [] varB varA [varA] "D" rfl ⟨by decide, rfl, by decide, trivial⟩
    (by decide) rfl ⟨rfl, rfl⟩).1 (by decide) (by decide)

theorem cycle_from_depth (env : Env α σ) (catalog : GoMap (Variable α))
    (vals : GoMap (Value α)) (opts : BoilerplateOptions α) (s : σ) (n : Nat)
    (v : Fin (n + 1) → Variable α)
    (hne : ∀ i, (v i).Reference ≠ "")
    (href : ∀ i, (v i).Reference = (v (i + 1)).Name)
    (hcat : ∀ i, catalog.get? (v i).Name = some (v i))
    (hvals : ∀ i, vals.get? (v i).Name = none) :
    ∀ (m d : Nat), d + m = 21 → ∀ j : Fin (n + 1),
      getValueForVariable env (v j) catalog vals opts (d : Int) s
        = (.error (Error.CyclicalReference (v (j + (m : Fin (n + 1)))).Name
            (v (j + (m : Fin (n + 1)))).Reference), s) := by
  intro m
  induction m with
  | zero =>
    intro d hd j
    have : d = 21 := by omega
    subst this
    simp only [Nat.cast_zero, add_zero]
    exact getValueForVariable_depth env (v j) catalog vals opts _ s (by decide)
  | succ m ih =>
    intro d hd j
    have hd20 : (d : Int) ≤ MaxReferenceDepth := by
      simp only [MaxReferenceDepth]; omega
    rw [getValueForVariable_follow env (v j) (v (j + 1)) catalog vals opts d s hd20
      (hvals j) (hne j) (by rw [href j]; exact hvals (j + 1))
      (by rw [href j]; exact hcat (j + 1))]
    have h := ih (d + 1) (by omega) (j + 1)
    have e1 : ((d + 1 : Nat) : Int) = (d : Int) + 1 := by push_cast; rfl
    have e2 : j + 1 + (m : Fin (n + 1)) = j + ((m + 1 : Nat) : Fin (n + 1)) := by
      push_cast; ring
    rw [e1, e2] at h
    exact h

/-- C2. For a reference cycle `v 0 → v 1 → … → v n → v 0` of the catalog (`n + 1 ≥ 1`
variables, a self-reference when `n = 0`), none of whose names is in the map of resolved
values, `getValueForVariable` started at depth 0 on any member `v i` returns a
`CyclicalReference` error, for every options value and every collaborator; the error is
raised on the member reached after 21 hops. -/
theorem getValueForVariable_cycle (env : Env α σ) (catalog : GoMap (Variable α))
    (vals : GoMap (Value α)) (opts : BoilerplateOptions α) (s : σ) (n : Nat)
    (v : Fin (n + 1) → Variable α)
    (hne : ∀ i, (v i).Reference ≠ "")
    (href : ∀ i, (v i).Reference = (v (i + 1)).Name)
    (hcat : ∀ i, catalog.get? (v i).Name = some (v i))
    (hvals : ∀ i, vals.get? (v i).Name = none) (i : Fin (n + 1)) :
    getValueForVariable env (v i) catalog vals opts 0 s
      = (.error (Error.CyclicalReference (v (i + 21)).Name (v (i + 21)).Reference), s) := by
  have h := cycle_from_depth env catalog vals opts s n v hne href hcat hvals
    21 0 rfl i
  simpa using h

/-- C2 at a concrete input: the cycle `p → q → p` started on `p`, in interactive mode; after 21
hops the guard fires on `q`. -/
theorem getValueForVariable_cycle_witness :
    getValueForVariable scriptedEnv (cyclePair 0) (getAllVariablesInConfig configCycle)
        GoMap.empty (mkOptions [] false) 0 ["typed"]
      = (.error (Error.CyclicalReference "q" "p"), ["typed"]) :=
  getValueForVariable_cycle scriptedEnv (getAllVariablesInConfig configCycle) GoMap.empty
    (mkOptions [] false) ["typed"] 1 cyclePair (by decide) (by decide) (by decide)
    (by decide) 0

/-- C10, counterexample. The variable `c` declares the reference `z`, which is not a key of
the catalog, but the map of resolved values has an entry under `c`: the resolver returns
that entry and no `MissingReference` error. -/
theorem getValueForVariable_missing_counterexample :
    varC.Reference ≠ "" ∧
    (getAllVariablesInConfig configABC).get? varC.Reference = none ∧
    getValueForVariable scriptedEnv varC (getAllVariablesInConfig configABC)
        (GoMap.empty.set "c" (Value.data (some "X"))) (mkOptions [] true) 0 []
      = (.ok (Value.data (some "X")), []) ∧
    getValueForVariable scriptedEnv varC (getAllVariablesInConfig configABC)
        (GoMap.empty.set "c" (Value.data (some "X"))) (mkOptions [] true) 0 []
      ≠ (.error (Error.MissingReference varC.Name varC.Reference), []) := by
  have h := getValueForVariable_of_fuel scriptedEnv varC (getAllVariablesInConfig configABC)
    (GoMap.empty.set "c" (Value.data (some "X"))) (mkOptions [] true) []
    (.ok (Value.data (some "X")), []) (by decide)
  refine ⟨by decide, by decide, h, ?_⟩
  rw [h]
  decide

/-- C10, as amended. For a variable `b` that declares a non-empty reference `z`, where `z`
is not a key of the catalog and neither the name of `b` nor `z` has an entry in the map of
resolved values, `getValueForVariable` at depth 0 fails with the `MissingReference` error
whose `VariableName` is the name of `b` and whose `ReferenceName` is `z`. -/
theorem getValueForVariable_missing_reference (env : Env α σ) (b : Variable α)
    (catalog : GoMap (Variable α)) (vals : GoMap (Value α)) (opts : BoilerplateOptions α)
    (s : σ) (hr : b.Reference ≠ "") (hc : catalog.get? b.Reference = none)
    (hb : vals.get? b.Name = none) (hz : vals.get? b.Reference = none) :
    getValueForVariable env b catalog vals opts 0 s
      = (.error (Error.MissingReference b.Name b.Reference), s) :=
  getValueForVariable_missing env b catalog vals opts 0 s (by decide) hb hr hz hc

/-- C10 at a concrete input: `c` references `z`, which no variable is named. -/
theorem getValueForVariable_missing_reference_witness :
    getValueForVariable scriptedEnv varC (getAllVariablesInConfig configABC) GoMap.empty
        (mkOptions [] true) 0 []
      = (.error (Error.MissingReference "c" "z"), []) :=
  getValueForVariable_missing_reference scriptedEnv varC (getAllVariablesInConfig configABC)
    GoMap.empty (mkOptions [] true) [] (by decide) (by decide) (by decide) (by decide)

end ResolverProofs

/-! ## Properties of the first loop -/

theorem lookupEntry_eq_none {β : Type} (l : List (String × β)) (k : String)
    (h : k ∉ l.map Prod.fst) : lookupEntry l k = none := by
  induction l with
  | nil => rfl
  | cons hd tl ih =>
    obtain ⟨k0, v0⟩ := hd
    simp only [List.map_cons, List.mem_cons, not_or] at h
    have h0 : ¬ k0 = k := fun e => h.1 e.symm
    simp only [lookupEntry, h0, if_false]
    exact ih h.2

theorem lookupEntry_of_mem {β : Type} (l : List (String × β)) (k : String) (v : β)
    (hnd : (l.map Prod.fst).Nodup) (h : (k, v) ∈ l) : lookupEntry l k = some v := by
  induction l with
  | nil => simp at h
  | cons hd tl ih =>
    obtain ⟨k0, v0⟩ := hd
    simp only [List.map_cons, List.nodup_cons] at hnd
    rcases List.mem_cons.1 h with h1 | h1
    · cases h1
      simp [lookupEntry]
    · have hk : k ∈ tl.map Prod.fst := List.mem_map.2 ⟨(k, v), h1, rfl⟩
      have h0 : ¬ k0 = k := fun e => hnd.1 (e ▸ hk)
      simp only [lookupEntry, h0, if_false]
      exact ih hnd.2 h1

theorem foldl_set_get? {β γ : Type} (f : β → γ) (l : List (String × β))
    (hnd : (l.map Prod.fst).Nodup) (m : GoMap γ) (k : String) :
    (l.foldl (fun vars e => vars.set e.1 (f e.2)) m).get? k
      = match lookupEntry l k with
        | some x => some (f x)
        | none => m.get? k := by
  induction l generalizing m with
  | nil => rfl
  | cons hd tl ih =>
    obtain ⟨k0, v0⟩ := hd
    simp only [List.map_cons, List.nodup_cons] at hnd
    rw [List.foldl_cons, ih hnd.2]
    by_cases h0 : k0 = k
    · subst h0
      rw [lookupEntry_eq_none tl k0 hnd.1]
      simp [lookupEntry, GoMap.get?_set_self]
    · have h0' : k ≠ k0 := fun e => h0 e.symm
      simp only [lookupEntry, h0, if_false]
      cases lookupEntry tl k with
      | some x => rfl
      | none => simp only [GoMap.get?_set_of_ne _ _ _ _ h0']

section LoopProofs

variable {α σ : Type}

theorem initialVars_get? (opts : BoilerplateOptions α)
    (boilerplateConfig rootBoilerplateConfig : BoilerplateConfig α) (thisDep : Dependency α)
    (k : String) (h1 : k ≠ "BoilerplateConfigVars") (h2 : k ≠ "BoilerplateConfigDeps")
    (h3 : k ≠ "This") :
    (initialVars opts boilerplateConfig rootBoilerplateConfig thisDep).get? k
      = (opts.Vars.get? k).map Value.data := by
  unfold initialVars
  simp only [GoMap.get?_set_of_ne _ _ _ _ h1, GoMap.get?_set_of_ne _ _ _ _ h2,
    GoMap.get?_set_of_ne _ _ _ _ h3]
  rw [foldl_set_get? Value.data opts.Vars.entries opts.Vars.nodup]
  unfold GoMap.get?
  cases lookupEntry opts.Vars.entries k <;> rfl

theorem firstLoop_persist (env : Env α σ) (catalog : GoMap (Variable α))
    (opts : BoilerplateOptions α) (order : List (Variable α)) :
    ∀ (vars final : GoMap (Value α)) (s s' : σ) (k : String) (x : Value α),
      firstLoop env catalog opts order vars s = (.ok final, s') →
      vars.get? k = some x → final.get? k = some x := by
  induction order with
  | nil =>
    intro vars final s s' k x h hx
    simp only [firstLoop, Prod.mk.injEq, Except.ok.injEq] at h
    rw [← h.1]; exact hx
  | cons var order ih =>
    intro vars final s s' k x h hx
    rw [firstLoop] at h
    rcases hres : getValueForVariable env var catalog vars opts 0 s with ⟨r, s1⟩
    rw [hres] at h
    cases r with
    | error err => simp at h
    | ok u =>
      simp only [] at h
      refine ih _ final s1 s' k x h ?_
      by_cases hk : k = var.Name
      · subst hk
        rw [getValueForVariable_memo env var catalog vars opts 0 s x (by decide) hx] at hres
        simp only [Prod.mk.injEq, Except.ok.injEq] at hres
        rw [← hres.1]
        exact GoMap.get?_set_self _ _ _
      · rw [GoMap.get?_set_of_ne _ _ _ _ hk]; exact hx

theorem firstLoopFuel_eq (env : Env α σ) (catalog : GoMap (Variable α))
    (opts : BoilerplateOptions α) (order : List (Variable α)) :
    ∀ (vars : GoMap (Value α)) (s : σ),
      firstLoopFuel env catalog opts order vars s
        = some (firstLoop env catalog opts order vars s) := by
  induction order with
  | nil => intro vars s; rfl
  | cons var order ih =>
    intro vars s
    rw [firstLoopFuel, firstLoop,
      getValueForVariableFuel_eq env catalog vars opts 22 var 0 s (by decide)]
    rcases getValueForVariable env var catalog vars opts 0 s with ⟨r, s1⟩
    cases r with
    | error err => rfl
    | ok u => exact ih _ _

theorem GetVariablesPhase1_of_fuel (env : Env α σ) (opts : BoilerplateOptions α)
    (boilerplateConfig rootBoilerplateConfig : BoilerplateConfig α) (thisDep : Dependency α)
    (order : List (Variable α)) (s : σ) (r : Except Error (GoMap (Value α)) × σ)
    (h : firstLoopFuel env (getAllVariablesInConfig boilerplateConfig) opts order
      (initialVars opts boilerplateConfig rootBoilerplateConfig thisDep) s = some r) :
    GetVariablesPhase1 env opts boilerplateConfig rootBoilerplateConfig thisDep order s = r := by
  rw [firstLoopFuel_eq] at h
  exact Option.some.inj h

theorem getVariable_nonInteractive (env : Env α σ) (var : Variable α)
    (opts : BoilerplateOptions α) (s s' : σ) (y : Option α)
    (hni : opts.NonInteractive = true) (h : getVariable env var opts s = (.ok y, s')) :
    (opts.Vars.get? var.Name = some y ∨
      (opts.Vars.get? var.Name = none ∧ var.Default = y ∧ y ≠ none)) ∧ s' = s := by
  unfold getVariable at h
  rw [getVariableFromVars_eq] at h
  cases hv : opts.Vars.get? var.Name with
  | some x =>
    rw [hv] at h
    simp only [Prod.mk.injEq, Except.ok.injEq] at h
    exact ⟨Or.inl (by rw [h.1]), h.2.symm⟩
  | none =>
    rw [hv] at h
    cases hd : var.Default with
    | none => simp [hni, hd] at h
    | some d =>
      simp only [hni, hd, Option.isSome_some, Bool.and_self, if_true, Prod.mk.injEq,
        Except.ok.injEq] at h
      exact ⟨Or.inr ⟨rfl, h.1, by rw [← h.1]; simp⟩, h.2.symm⟩

theorem Resolves.unique {catalog : GoMap (Variable α)} {init : GoMap (Value α)}
    {opts : BoilerplateOptions α} {v : Variable α} {x y : Value α}
    (hx : Resolves catalog init opts v x) (hy : Resolves catalog init opts v y) : x = y := by
  induction hx with
  | memo v x h =>
    cases hy with
    | memo _ _ h' => rw [h] at h'; exact Option.some.inj h'
    | referenceMemo _ _ hv _ _ => rw [h] at hv; cases hv
    | follow _ _ _ hv _ _ _ _ => rw [h] at hv; cases hv
    | direct _ _ hv _ _ => rw [h] at hv; cases hv
  | referenceMemo v x hv hr hx =>
    cases hy with
    | memo _ _ h' => rw [hv] at h'; cases h'
    | referenceMemo _ _ _ _ hx' => rw [hx] at hx'; exact Option.some.inj hx'
    | follow _ _ _ _ _ hx' _ _ => rw [hx] at hx'; cases hx'
    | direct _ _ _ hr' _ => exact absurd hr' hr
  | follow v w x hv hr hx hc _ ih =>
    cases hy with
    | memo _ _ h' => rw [hv] at h'; cases h'
    | referenceMemo _ _ _ _ hx' => rw [hx] at hx'; cases hx'
    | follow _ w' _ _ _ _ hc' hw' =>
      rw [hc] at hc'
      cases hc'
      exact ih hw'
    | direct _ _ _ hr' _ => exact absurd hr' hr
  | direct v y0 hv hr hy0 =>
    cases hy with
    | memo _ _ h' => rw [hv] at h'; cases h'
    | referenceMemo _ _ _ hr' _ => exact absurd hr hr'
    | follow _ _ _ _ hr' _ _ _ => exact absurd hr hr'
    | direct _ y1 _ _ hy1 =>
      congr 1
      rcases hy0 with h0 | ⟨h0, h0', _⟩
      · rcases hy1 with h1 | ⟨h1, _, _⟩
        · rw [h0] at h1; exact Option.some.inj h1
        · rw [h0] at h1; cases h1
      · rcases hy1 with h1 | ⟨_, h1', _⟩
        · rw [h0] at h1; cases h1
        · rw [← h0', ← h1']

theorem getValueForVariable_sound (env : Env α σ) (catalog : GoMap (Variable α))
    (init vars : GoMap (Value α)) (opts : BoilerplateOptions α)
    (hni : opts.NonInteractive = true)
    (hkey : ∀ k w, catalog.get? k = some w → w.Name = k)
    (hcons : Consistent catalog init opts vars) (fuel : Nat) :
    ∀ (v : Variable α) (d : Int) (s s' : σ) (x : Value α),
      (MaxReferenceDepth + 1 - d).toNat < fuel →
      catalog.get? v.Name = some v →
      getValueForVariable env v catalog vars opts d s = (.ok x, s') →
      Resolves catalog init opts v x ∧ s' = s := by
  induction fuel with
  | zero => intro v d s s' x hf; omega
  | succ fuel ih =>
    intro v d s s' x hf hcat h
    rw [getValueForVariable] at h
    by_cases hd : d > MaxReferenceDepth
    · rw [if_pos hd] at h; simp at h
    · rw [if_neg hd] at h
      cases hv : vars.get? v.Name with
      | some y =>
        simp only [hv, Prod.mk.injEq, Except.ok.injEq] at h
        obtain ⟨hyx, hs⟩ := h
        subst hyx
        refine ⟨?_, hs.symm⟩
        rcases hcons.2 _ _ hv with hi | ⟨_, w, hw, hres⟩
        · exact Resolves.memo v y hi
        · rw [hcat] at hw
          cases hw
          exact hres
      | none =>
        have hinit : init.get? v.Name = none := by
          cases hi : init.get? v.Name with
          | none => rfl
          | some z => rw [hcons.1 _ _ hi] at hv; cases hv
        simp only [hv] at h
        by_cases hr : v.Reference = ""
        · simp only [hr, ne_eq, not_true_eq_false, if_false] at h
          rcases hg : getVariable env v opts s with ⟨r, s1⟩
          rw [hg] at h
          cases r with
          | error err => simp at h
          | ok y =>
            simp only [Prod.mk.injEq, Except.ok.injEq] at h
            obtain ⟨hyx, hs⟩ := h
            subst hyx
            subst hs
            obtain ⟨hy, hs1⟩ := getVariable_nonInteractive env v opts s s1 y hni hg
            exact ⟨Resolves.direct v y hinit hr hy, hs1⟩
        · simp only [hr, ne_eq, not_false_eq_true, if_true] at h
          cases hx : vars.get? v.Reference with
          | some y =>
            simp only [hx, Prod.mk.injEq, Except.ok.injEq] at h
            obtain ⟨hyx, hs⟩ := h
            subst hyx
            refine ⟨?_, hs.symm⟩
            rcases hcons.2 _ _ hx with hi | ⟨hi, w, hw, hres⟩
            · exact Resolves.referenceMemo v y hinit hr hi
            · exact Resolves.follow v w y hinit hr hi hw hres
          | none =>
            have hinitr : init.get? v.Reference = none := by
              cases hi : init.get? v.Reference with
              | none => rfl
              | some z => rw [hcons.1 _ _ hi] at hx; cases hx
            simp only [hx] at h
            cases hc : catalog.get? v.Reference with
            | none => simp [hc] at h
            | some w =>
              simp only [hc] at h
              have hwn : w.Name = v.Reference := hkey _ _ hc
              have hrec := ih w (d + 1) s s' x
                (by simp only [MaxReferenceDepth] at *; omega) (by rw [hwn]; exact hc) h
              exact ⟨Resolves.follow v w x hinit hr hinitr hc hrec.1, hrec.2⟩

theorem firstLoop_consistent (env : Env α σ) (catalog : GoMap (Variable α))
    (init : GoMap (Value α)) (opts : BoilerplateOptions α)
    (hni : opts.NonInteractive = true)
    (hkey : ∀ k w, catalog.get? k = some w → w.Name = k) (order : List (Variable α)) :
    ∀ (vars final : GoMap (Value α)) (s s' : σ),
      (∀ v ∈ order, catalog.get? v.Name = some v) →
      Consistent catalog init opts vars →
      firstLoop env catalog opts order vars s = (.ok final, s') →
      Consistent catalog init opts final ∧
        (∀ v ∈ order, ∃ x, final.get? v.Name = some x) ∧ s' = s := by
  induction order with
  | nil =>
    intro vars final s s' _ hcons h
    simp only [firstLoop, Prod.mk.injEq, Except.ok.injEq] at h
    rw [← h.1]
    exact ⟨hcons, by simp, h.2.symm⟩
  | cons var order ih =>
    intro vars final s s' hcat hcons h
    rw [firstLoop] at h
    rcases hres : getValueForVariable env var catalog vars opts 0 s with ⟨r, s1⟩
    rw [hres] at h
    cases r with
    | error err => simp at h
    | ok u =>
      simp only [] at h
      have hvar : catalog.get? var.Name = some var := hcat var (by simp)
      obtain ⟨hru, hs1⟩ := getValueForVariable_sound env catalog init vars opts hni hkey
        hcons 22 var 0 s s1 u (by decide) hvar hres
      have hcons' : Consistent catalog init opts (vars.set var.Name u) := by
        constructor
        · intro k x hi
          by_cases hk : k = var.Name
          · subst hk
            have : u = x := Resolves.unique hru (Resolves.memo var x hi)
            rw [this]
            exact GoMap.get?_set_self _ _ _
          · rw [GoMap.get?_set_of_ne _ _ _ _ hk]
            exact hcons.1 k x hi
        · intro k x hx
          by_cases hk : k = var.Name
          · subst hk
            rw [GoMap.get?_set_self] at hx
            have hux : u = x := Option.some.inj hx
            subst hux
            cases hi : init.get? var.Name with
            | some y =>
              left
              rw [Resolves.unique hru (Resolves.memo var y hi)]
            | none => exact Or.inr ⟨rfl, var, hvar, hru⟩
          · rw [GoMap.get?_set_of_ne _ _ _ _ hk] at hx
            exact hcons.2 k x hx
      obtain ⟨hfinal, hall, hs⟩ := ih (vars.set var.Name u) final s1 s'
        (fun v hv => hcat v (List.mem_cons_of_mem _ hv)) hcons' h
      refine ⟨hfinal, ?_, by rw [hs, hs1]⟩
      intro v hv
      rcases List.mem_cons.1 hv with hv | hv
      · subst hv
        exact ⟨u, firstLoop_persist env catalog opts order _ final s1 s' _ u h
          (GoMap.get?_set_self _ _ _)⟩
      · exact hall v hv

theorem foldl_set_name (l : List (Variable α)) :
    ∀ m : GoMap (Variable α), (∀ k w, m.get? k = some w → w.Name = k) →
      ∀ k w, (l.foldl (fun m var => m.set var.Name var) m).get? k = some w → w.Name = k := by
  induction l with
  | nil => intro m hm; exact hm
  | cons var l ih =>
    intro m hm
    rw [List.foldl_cons]
    apply ih
    intro k w hw
    by_cases hk : k = var.Name
    · subst hk
      rw [GoMap.get?_set_self] at hw
      cases hw
      rfl
    · rw [GoMap.get?_set_of_ne _ _ _ _ hk] at hw
      exact hm k w hw

theorem getAllVariablesInConfig_key (boilerplateConfig : BoilerplateConfig α) :
    ∀ k w, (getAllVariablesInConfig boilerplateConfig).get? k = some w → w.Name = k := by
  unfold getAllVariablesInConfig
  have hdeps : ∀ (deps : List (Dependency α)) (m : GoMap (Variable α)),
      (∀ k w, m.get? k = some w → w.Name = k) →
      ∀ k w, (deps.foldl (fun m dependency =>
        dependency.GetNamespacedVariables.foldl (fun m var => m.set var.Name var) m) m).get? k
          = some w → w.Name = k := by
    intro deps
    induction deps with
    | nil => intro m hm; exact hm
    | cons dep deps ih =>
      intro m hm
      rw [List.foldl_cons]
      exact ih _ (foldl_set_name dep.GetNamespacedVariables m hm)
  exact hdeps _ _ (foldl_set_name _ _ (fun k w h => by cases h))

theorem lookupEntry_mem {β : Type} (l : List (String × β)) (k : String) (v : β)
    (h : lookupEntry l k = some v) : (k, v) ∈ l := by
  induction l with
  | nil => cases h
  | cons hd tl ih =>
    obtain ⟨k0, v0⟩ := hd
    by_cases h0 : k0 = k
    · subst h0
      simp only [lookupEntry, if_true, Option.some.injEq] at h
      subst h
      exact List.mem_cons_self _ _
    · simp only [lookupEntry, h0, if_false] at h
      exact List.mem_cons_of_mem _ (ih h)

theorem GoMap.mem_values_iff {β : Type} (m : GoMap β) (v : β) :
    v ∈ m.values ↔ ∃ k, m.get? k = some v := by
  constructor
  · intro h
    obtain ⟨⟨k, v'⟩, hmem, hv⟩ := List.mem_map.1 h
    cases hv
    exact ⟨k, lookupEntry_of_mem m.entries k v' m.nodup hmem⟩
  · rintro ⟨k, hk⟩
    exact List.mem_map.2 ⟨(k, v), lookupEntry_mem m.entries k v hk, rfl⟩

theorem getAllVariablesInConfig_get?_of_mem (boilerplateConfig : BoilerplateConfig α)
    (v : Variable α) (h : v ∈ (getAllVariablesInConfig boilerplateConfig).values) :
    (getAllVariablesInConfig boilerplateConfig).get? v.Name = some v := by
  obtain ⟨k, hk⟩ := (GoMap.mem_values_iff _ v).1 h
  rw [getAllVariablesInConfig_key boilerplateConfig k v hk]
  exact hk

theorem Consistent.refl (catalog : GoMap (Variable α)) (init : GoMap (Value α))
    (opts : BoilerplateOptions α) : Consistent catalog init opts init :=
  ⟨fun _ _ h => h, fun _ _ h => Or.inl h⟩

theorem GetVariablesPhase1_consistent (env : Env α σ) (opts : BoilerplateOptions α)
    (boilerplateConfig rootBoilerplateConfig : BoilerplateConfig α) (thisDep : Dependency α)
    (order : List (Variable α)) (s s' : σ) (final : GoMap (Value α))
    (hni : opts.NonInteractive = true)
    (horder : (getAllVariablesInConfig boilerplateConfig).IsIterationOrder order)
    (hres : GetVariablesPhase1 env opts boilerplateConfig rootBoilerplateConfig thisDep
      order s = (.ok final, s')) :
    Consistent (getAllVariablesInConfig boilerplateConfig)
        (initialVars opts boilerplateConfig rootBoilerplateConfig thisDep) opts final ∧
      (∀ v ∈ (getAllVariablesInConfig boilerplateConfig).values,
        ∃ x, final.get? v.Name = some x) ∧ s' = s := by
  have hmem : ∀ v ∈ order,
      (getAllVariablesInConfig boilerplateConfig).get? v.Name = some v :=
    fun v hv => getAllVariablesInConfig_get?_of_mem boilerplateConfig v (horder.mem_iff.1 hv)
  obtain ⟨h1, h2, h3⟩ := firstLoop_consistent env _ _ opts hni
    (getAllVariablesInConfig_key boilerplateConfig) order _ final s s' hmem
    (Consistent.refl _ _ _) hres
  exact ⟨h1, fun v hv => h2 v (horder.mem_iff.2 hv), h3⟩

/-- C5, counterexample. The configuration declares a variable named `This` and the command
line options hold `"X"` under `This`: Phase 1 succeeds and the raw value stored under
`This` is the synthetic entry of the driver, not the override. -/
theorem GetVariablesPhase1_override_counterexample :
    (mkOptions [("This", some "X")] true).Vars.get? (mkVariable "This" (some "D") "").Name
      = some (some "X") ∧
    (getAllVariablesInConfig configThis).IsIterationOrder [mkVariable "This" (some "D") ""] ∧
    ∃ final,
      GetVariablesPhase1 scriptedEnv (mkOptions [("This", some "X")] true) configThis
          configThis noDependency [mkVariable "This" (some "D") ""] []
        = (.ok final, []) ∧
      final.get? "This"
        = some (Value.thisTemplateProps configThis (mkOptions [("This", some "X")] true)
            noDependency) ∧
      final.get? "This" ≠ some (Value.data (some "X")) := by
  refine ⟨by decide, List.Perm.refl _, ?_⟩
  rcases hres : GetVariablesPhase1 scriptedEnv (mkOptions [("This", some "X")] true)
    configThis configThis noDependency [mkVariable "This" (some "D") ""] [] with ⟨r, s1⟩
  have hmemo := getValueForVariable_memo scriptedEnv (mkVariable "This" (some "D") "")
    (getAllVariablesInConfig configThis)
    (initialVars (mkOptions [("This", some "X")] true) configThis configThis noDependency)
    (mkOptions [("This", some "X")] true) 0 []
    (Value.thisTemplateProps configThis (mkOptions [("This", some "X")] true) noDependency)
    (by decide) (GoMap.get?_set_self _ _ _)
  simp only [GetVariablesPhase1, firstLoop, hmemo, Prod.mk.injEq] at hres
  obtain ⟨hr, hs⟩ := hres
  subst hr hs
  refine ⟨_, rfl, ?_⟩
  have hget : ∀ (m : GoMap (Value String)) (x : Value String),
      (m.set (mkVariable "This" (some "D") "").Name x).get? "This" = some x :=
    fun m x => GoMap.get?_set_self m "This" x
  refine ⟨hget _ _, ?_⟩
  rw [hget]
  simp

/-- C5, as amended. For every configuration, every options value and every variable `v`
whose name is none of the three synthetic keys and has an entry in the command line
options: whenever Phase 1 of `GetVariables` succeeds, in whatever order the catalog is
processed, the raw value stored under the name of `v` is that entry. -/
theorem GetVariablesPhase1_override (env : Env α σ) (opts : BoilerplateOptions α)
    (boilerplateConfig rootBoilerplateConfig : BoilerplateConfig α) (thisDep : Dependency α)
    (order : List (Variable α)) (s s' : σ) (final : GoMap (Value α)) (v : Variable α)
    (x : Option α)
    (h1 : v.Name ≠ "BoilerplateConfigVars") (h2 : v.Name ≠ "BoilerplateConfigDeps")
    (h3 : v.Name ≠ "This")
    (hx : opts.Vars.get? v.Name = some x)
    (hres : GetVariablesPhase1 env opts boilerplateConfig rootBoilerplateConfig thisDep
      order s = (.ok final, s')) :
    final.get? v.Name = some (Value.data x) := by
  refine firstLoop_persist env _ opts order _ final s s' v.Name (Value.data x) hres ?_
  rw [initialVars_get? opts boilerplateConfig rootBoilerplateConfig thisDep v.Name h1 h2 h3, hx]
  rfl

/-- C5 at a concrete input: `b` references `a` and has the command line value `"X"`. -/
theorem GetVariablesPhase1_override_witness :
    rawValuesOverride.get? varB.Name = some (Value.data (some "X")) :=
  GetVariablesPhase1_override scriptedEnv (mkOptions [("b", some "X")] true) configAB
    configAB noDependency [varA, varB] [] [] rawValuesOverride varB (some "X")
    (by decide) (by decide) (by decide) (by decide)
    (GetVariablesPhase1_of_fuel _ _ _ _ _ _ _ _ (by decide))

/-- C9, counterexample. The variable `b` references `a` and the non-interactive options
hold `"X"` under `b`: Phase 1 succeeds, the raw value of `b` is `"X"` and the raw value of
`a` is its default `"D"`. -/
theorem GetVariablesPhase1_reference_counterexample :
    (mkOptions [("b", some "X")] true).NonInteractive = true ∧
    (getAllVariablesInConfig configAB).IsIterationOrder [varA, varB] ∧
    varB ∈ (getAllVariablesInConfig configAB).values ∧
    varA ∈ (getAllVariablesInConfig configAB).values ∧
    varB.Reference = varA.Name ∧
    ∃ final,
      GetVariablesPhase1 scriptedEnv (mkOptions [("b", some "X")] true) configAB configAB
        noDependency [varA, varB] [] = (.ok final, []) ∧
      final.get? varB.Name = some (Value.data (some "X")) ∧
      final.get? varA.Name = some (Value.data (some "D")) ∧
      final.get? varB.Name ≠ final.get? varA.Name := by
  refine ⟨rfl, List.Perm.refl _, by decide, by decide, rfl,
    ((initialVars (mkOptions [("b", some "X")] true) configAB configAB noDependency).set "a"
      (Value.data (some "D"))).set "b" (Value.data (some "X")), ?_, by decide, by decide,
    by decide⟩
  exact GetVariablesPhase1_of_fuel _ _ _ _ _ _ _ _ (by decide)

/-- C9, as amended. For every configuration and every non-interactive options value for
which Phase 1 of `GetVariables` succeeds, and every catalog variable `b` that declares a
(non-empty) reference naming a catalog variable `a`, whose own name has no entry in the
command line options and is none of the three synthetic keys: the raw value stored for `b`
after Phase 1 is the raw value stored for `a`. -/
theorem GetVariablesPhase1_reference (env : Env α σ) (opts : BoilerplateOptions α)
    (boilerplateConfig rootBoilerplateConfig : BoilerplateConfig α) (thisDep : Dependency α)
    (order : List (Variable α)) (s s' : σ) (final : GoMap (Value α)) (a b : Variable α)
    (hni : opts.NonInteractive = true)
    (horder : (getAllVariablesInConfig boilerplateConfig).IsIterationOrder order)
    (hres : GetVariablesPhase1 env opts boilerplateConfig rootBoilerplateConfig thisDep
      order s = (.ok final, s'))
    (ha : a ∈ (getAllVariablesInConfig boilerplateConfig).values)
    (hb : b ∈ (getAllVariablesInConfig boilerplateConfig).values)
    (hne : b.Reference ≠ "") (href : b.Reference = a.Name)
    (hvars : opts.Vars.get? b.Name = none)
    (h1 : b.Name ≠ "BoilerplateConfigVars") (h2 : b.Name ≠ "BoilerplateConfigDeps")
    (h3 : b.Name ≠ "This") :
    ∃ x, final.get? b.Name = some x ∧ final.get? a.Name = some x := by
  obtain ⟨hc, hp, _⟩ := GetVariablesPhase1_consistent env opts boilerplateConfig
    rootBoilerplateConfig thisDep order s s' final hni horder hres
  have hinitb : (initialVars opts boilerplateConfig rootBoilerplateConfig thisDep).get? b.Name
      = none := by
    rw [initialVars_get? opts boilerplateConfig rootBoilerplateConfig thisDep b.Name h1 h2 h3,
      hvars]
    rfl
  have hcata := getAllVariablesInConfig_get?_of_mem boilerplateConfig a ha
  have hcatb := getAllVariablesInConfig_get?_of_mem boilerplateConfig b hb
  obtain ⟨xa, hxa⟩ := hp a ha
  obtain ⟨xb, hxb⟩ := hp b hb
  have hra : Resolves (getAllVariablesInConfig boilerplateConfig)
      (initialVars opts boilerplateConfig rootBoilerplateConfig thisDep) opts a xa := by
    rcases hc.2 _ _ hxa with hi | ⟨_, w, hw, hr⟩
    · exact Resolves.memo a xa hi
    · rw [hcata] at hw
      cases hw
      exact hr
  have hrb : Resolves (getAllVariablesInConfig boilerplateConfig)
      (initialVars opts boilerplateConfig rootBoilerplateConfig thisDep) opts b xb := by
    rcases hc.2 _ _ hxb with hi | ⟨_, w, hw, hr⟩
    · rw [hinitb] at hi; cases hi
    · rw [hcatb] at hw
      cases hw
      exact hr
  refine ⟨xb, hxb, ?_⟩
  rw [hxa]
  congr 1
  cases hrb with
  | memo _ _ h => rw [hinitb] at h; cases h
  | referenceMemo _ _ _ _ hx =>
    rw [href] at hx
    exact Resolves.unique hra (Resolves.memo a xb hx)
  | follow _ w _ _ _ _ hcw hw =>
    rw [href, hcata] at hcw
    cases hcw
    exact Resolves.unique hra hw
  | direct _ _ _ hr _ => exact absurd hr hne

/-- C9 at a concrete input: without command line values `b` and `a` hold the same raw value. -/
theorem GetVariablesPhase1_reference_witness :
    ∃ x, rawValuesAB.get? varB.Name = some x ∧ rawValuesAB.get? varA.Name = some x :=
  GetVariablesPhase1_reference scriptedEnv (mkOptions [] true) configAB configAB
    noDependency [varA, varB] [] [] rawValuesAB varA varB rfl (List.Perm.refl _)
    (GetVariablesPhase1_of_fuel _ _ _ _ _ _ _ _ (by decide))
    (by decide) (by decide) (by decide) rfl (by decide) (by decide) (by decide) (by decide)

end LoopProofs

/-! ## The memo lookup and the depth guard -/

section GuardProofs

variable {α σ : Type}

/-- C12, counterexample. The map of resolved values has an entry under `a`, and at depth 21
the resolver returns a `CyclicalReference` error instead of that entry. -/
theorem getValueForVariable_memoized_counterexample :
    (GoMap.empty.set "a" (Value.data (some "X"))).get? varA.Name
      = some (Value.data (some "X")) ∧
    getValueForVariable scriptedEnv varA (getAllVariablesInConfig configAB)
        (GoMap.empty.set "a" (Value.data (some "X"))) (mkOptions [] true) 21 []
      = (.error (Error.CyclicalReference "a" ""), []) ∧
    getValueForVariable scriptedEnv varA (getAllVariablesInConfig configAB)
        (GoMap.empty.set "a" (Value.data (some "X"))) (mkOptions [] true) 21 []
      ≠ (.ok (Value.data (some "X")), []) := by
  have h := getValueForVariable_depth scriptedEnv varA (getAllVariablesInConfig configAB)
    (GoMap.empty.set "a" (Value.data (some "X"))) (mkOptions [] true) 21 [] (by decide)
  refine ⟨by decide, h, ?_⟩
  rw [h]
  decide

/-- C12, as amended. For every variable whose name has an entry in the map of resolved
values and every `referenceDepth` that is at most `MaxReferenceDepth`,
`getValueForVariable` returns that entry with no error and leaves the terminal untouched. -/
theorem getValueForVariable_memoized (env : Env α σ) (var : Variable α)
    (catalog : GoMap (Variable α)) (vals : GoMap (Value α)) (opts : BoilerplateOptions α)
    (depth : Int) (s : σ) (x : Value α) (hd : depth ≤ MaxReferenceDepth)
    (hx : vals.get? var.Name = some x) :
    getValueForVariable env var catalog vals opts depth s = (.ok x, s) :=
  getValueForVariable_memo env var catalog vals opts depth s x hd hx

/-- C12 at a concrete input: the entry under `a` is returned at depth 20. -/
theorem getValueForVariable_memoized_witness :
    getValueForVariable scriptedEnv varA (getAllVariablesInConfig configAB)
        (GoMap.empty.set "a" (Value.data (some "X"))) (mkOptions [] true) 20 []
      = (.ok (Value.data (some "X")), []) :=
  getValueForVariable_memoized scriptedEnv varA (getAllVariablesInConfig configAB)
    (GoMap.empty.set "a" (Value.data (some "X"))) (mkOptions [] true) 20 []
    (Value.data (some "X")) (by decide) (by decide)

theorem resolveSpec_eq_of_guard (env : Env α σ) (catalog : GoMap (Variable α))
    (vals : GoMap (Value α)) (opts : BoilerplateOptions α)
    (hkey : ∀ k w, catalog.get? k = some w → w.Name = k) (fuel : Nat) :
    ∀ (var : Variable α) (depth : Int) (s : σ),
      (MaxReferenceDepth + 1 - depth).toNat < fuel →
      (depth ≤ MaxReferenceDepth ∨ vals.get? var.Name = none) →
      getValueForVariable env var catalog vals opts depth s
        = resolveSpec env var catalog vals opts depth s := by
  induction fuel with
  | zero => intro var depth s h; omega
  | succ fuel ih =>
    intro var depth s hf hg
    rw [getValueForVariable, resolveSpec]
    by_cases hd : depth > MaxReferenceDepth
    · have hnone : vals.get? var.Name = none := by
        rcases hg with hg | hg
        · exact absurd hd (not_lt.2 hg)
        · exact hg
      rw [if_pos hd, hnone]
      simp only [if_pos hd]
    · rw [if_neg hd]
      cases hv : vals.get? var.Name with
      | some x => rfl
      | none =>
        simp only [if_neg hd]
        by_cases hr : var.Reference = ""
        · simp only [hr, ne_eq, not_true_eq_false, if_false]
        · simp only [hr, ne_eq, not_false_eq_true, if_true]
          cases hx : vals.get? var.Reference with
          | some x => rfl
          | none =>
            cases hc : catalog.get? var.Reference with
            | none => rfl
            | some reference =>
              simp only []
              apply ih
              · simp only [MaxReferenceDepth] at *
                omega
              · right
                rw [hkey _ _ hc]
                exact hx

/-- C19. For every catalog in which each key is the name of its variable, every map of
resolved values and every options value, `getValueForVariable` called at depth 0 (depth
guard before the memo lookup) returns the result of the resolver of the specification
(memo lookup before the depth guard). -/
theorem getValueForVariable_refines_spec (env : Env α σ) (var : Variable α)
    (catalog : GoMap (Variable α)) (vals : GoMap (Value α)) (opts : BoilerplateOptions α)
    (s : σ) (hkey : ∀ k w, catalog.get? k = some w → w.Name = k) :
    getValueForVariable env var catalog vals opts 0 s
      = resolveSpec env var catalog vals opts 0 s :=
  resolveSpec_eq_of_guard env catalog vals opts hkey 22 var 0 s (by decide)
    (Or.inl (by decide))

/-- C19 at a concrete input: the catalog of `a` and `b`, resolving `b`. -/
theorem getValueForVariable_refines_spec_witness :
    getValueForVariable scriptedEnv varB (getAllVariablesInConfig configAB) GoMap.empty
        (mkOptions [] true) 0 []
      = resolveSpec scriptedEnv varB (getAllVariablesInConfig configAB) GoMap.empty
        (mkOptions [] true) 0 [] :=
  getValueForVariable_refines_spec scriptedEnv varB (getAllVariablesInConfig configAB)
    GoMap.empty (mkOptions [] true) [] (getAllVariablesInConfig_key configAB)

end GuardProofs

/-! ## Properties of the catalog builder -/

section CatalogProofs

variable {α : Type}

theorem foldl_set_get?_last (l : List (Variable α)) :
    ∀ (m : GoMap (Variable α)) (n : String),
      (l.foldl (fun m var => m.set var.Name var) m).get? n
        = ((l.filter (fun v => decide (v.Name = n))).getLast?).or (m.get? n) := by
  induction l with
  | nil => intro m n; simp
  | cons v l ih =>
    intro m n
    rw [List.foldl_cons, ih]
    by_cases hv : v.Name = n
    · subst hv
      simp only [List.filter_cons, decide_True, if_true, List.getLast?_cons,
        GoMap.get?_set_self]
      cases (l.filter (fun w => decide (w.Name = v.Name))).getLast? <;> simp
    · have hn : n ≠ v.Name := fun e => hv e.symm
      simp only [List.filter_cons, hv, decide_False, GoMap.get?_set_of_ne _ _ _ _ hn]
      simp

theorem foldl_dependencies (deps : List (Dependency α)) :
    ∀ m : GoMap (Variable α),
      deps.foldl (fun m dependency =>
        dependency.GetNamespacedVariables.foldl (fun m var => m.set var.Name var) m) m
      = (deps.flatMap (fun dependency => dependency.GetNamespacedVariables)).foldl
          (fun m var => m.set var.Name var) m := by
  induction deps with
  | nil => intro m; rfl
  | cons dep deps ih =>
    intro m
    rw [List.foldl_cons, ih, List.flatMap_cons, List.foldl_append]

theorem getAllVariablesInConfig_eq (boilerplateConfig : BoilerplateConfig α) :
    getAllVariablesInConfig boilerplateConfig
      = (catalogSequence boilerplateConfig).foldl (fun m var => m.set var.Name var)
          GoMap.empty := by
  unfold getAllVariablesInConfig catalogSequence
  rw [foldl_dependencies, List.foldl_append]

/-- C13. For every configuration, `getAllVariablesInConfig` maps each name to the last
variable of that name in the sequence of the local variables followed by the namespaced
variables of each dependency; its keys are exactly the names in that sequence, and every
entry's key is the name of its variable. -/
theorem getAllVariablesInConfig_spec (boilerplateConfig : BoilerplateConfig α) :
    (∀ n, (getAllVariablesInConfig boilerplateConfig).get? n
      = ((catalogSequence boilerplateConfig).filter
          (fun v => decide (v.Name = n))).getLast?) ∧
    (∀ n, (∃ v, (getAllVariablesInConfig boilerplateConfig).get? n = some v) ↔
      ∃ v ∈ catalogSequence boilerplateConfig, v.Name = n) ∧
    (∀ n v, (getAllVariablesInConfig boilerplateConfig).get? n = some v → v.Name = n) := by
  have hget : ∀ n, (getAllVariablesInConfig boilerplateConfig).get? n
      = ((catalogSequence boilerplateConfig).filter
          (fun v => decide (v.Name = n))).getLast? := by
    intro n
    rw [getAllVariablesInConfig_eq, foldl_set_get?_last]
    simp [GoMap.get?_empty]
  refine ⟨hget, ?_, getAllVariablesInConfig_key boilerplateConfig⟩
  intro n
  rw [hget]
  constructor
  · rintro ⟨v, hv⟩
    have hmem := List.mem_of_getLast?_eq_some hv
    rw [List.mem_filter] at hmem
    exact ⟨v, hmem.1, of_decide_eq_true hmem.2⟩
  · rintro ⟨v, hv, hn⟩
    have hne : (catalogSequence boilerplateConfig).filter (fun v => decide (v.Name = n)) ≠ [] :=
      List.ne_nil_of_mem (List.mem_filter.2 ⟨hv, decide_eq_true hn⟩)
    cases hl : ((catalogSequence boilerplateConfig).filter
        (fun v => decide (v.Name = n))).getLast? with
    | none => exact absurd (List.getLast?_eq_none_iff.1 hl) hne
    | some w => exact ⟨w, rfl⟩

/-- Last writer wins: the local variable `a` is replaced by the variable the dependency
exposes under the same name. -/
theorem getAllVariablesInConfig_collision :
    (getAllVariablesInConfig configCollision).get? "a"
      = some (mkVariable "a" (some "2") "dep.x") := by
  decide

end CatalogProofs

/-! ## The interactive path -/

section InteractiveProofs

variable {α σ : Type}

theorem getVariable_interactive (env : Env α σ) (var : Variable α)
    (opts : BoilerplateOptions α) (s : σ) (hni : opts.NonInteractive = false)
    (hvars : opts.Vars.get? var.Name = none) :
    getVariable env var opts s
      = match env.PromptUserForInput "  Enter a value" (promptState env var s) with
        | (.error err, s) => (.error err, s)
        | (.ok value, s) =>
          if value = "" then (.ok var.Default, s) else (env.ParseYamlString value, s) := by
  unfold getVariable
  rw [getVariableFromVars_eq, hvars]
  simp only [hni, Bool.false_and, Bool.false_eq_true, if_false]
  rfl

/-- C18. With the non-interactive flag unset and no entry in the command line options under
the name of the variable, `getVariable` prompts once after printing the help text: an
empty answer yields the default of the variable (nil when it has none) with no error, a
failure of the prompt is returned unchanged, and any other answer yields the result of
parsing it as a YAML literal. -/
theorem getVariable_prompt (env : Env α σ) (var : Variable α) (opts : BoilerplateOptions α)
    (s : σ) (hni : opts.NonInteractive = false) (hvars : opts.Vars.get? var.Name = none) :
    (∀ s1, env.PromptUserForInput "  Enter a value" (promptState env var s) = (.ok "", s1) →
      getVariable env var opts s = (.ok var.Default, s1)) ∧
    (∀ err s1,
      env.PromptUserForInput "  Enter a value" (promptState env var s) = (.error err, s1) →
      getVariable env var opts s = (.error err, s1)) ∧
    (∀ value s1, value ≠ "" →
      env.PromptUserForInput "  Enter a value" (promptState env var s) = (.ok value, s1) →
      getVariable env var opts s = (env.ParseYamlString value, s1)) := by
  rw [getVariable_interactive env var opts s hni hvars]
  refine ⟨?_, ?_, ?_⟩
  · intro s1 h; rw [h]; rfl
  · intro err s1 h; rw [h]
  · intro value s1 hne h; rw [h]; simp [hne]

/-- C18 at a concrete input: the user types `typed` for `a`, which has the default `"D"`. -/
theorem getVariable_prompt_witness :
    getVariable scriptedEnv varA (mkOptions [] false) ["typed", "next"]
      = (.ok (some "typed"), ["next"]) :=
  (getVariable_prompt scriptedEnv varA (mkOptions [] false) ["typed", "next"] rfl
    (by decide)).2.2 "typed" ["next"] (by decide) rfl

end InteractiveProofs

/-! ## Non-interactive mode -/

section NonInteractiveProofs

variable {α σ τ : Type}

theorem getVariable_nonInteractive_eq (env : Env α σ) (var : Variable α)
    (opts : BoilerplateOptions α) (s : σ) (hni : opts.NonInteractive = true) :
    getVariable env var opts s
      = (match opts.Vars.get? var.Name with
          | some x => .ok x
          | none =>
            if var.Default.isSome then .ok var.Default
            else .error (Error.MissingVariableWithNonInteractiveMode var.FullName), s) := by
  unfold getVariable
  rw [getVariableFromVars_eq]
  cases opts.Vars.get? var.Name with
  | some x => rfl
  | none =>
    cases hd : var.Default.isSome <;> simp [hni, hd]

theorem getValueForVariable_nonInteractive (env1 : Env α σ) (env2 : Env α τ)
    (catalog : GoMap (Variable α)) (vals : GoMap (Value α)) (opts : BoilerplateOptions α)
    (hni : opts.NonInteractive = true) (fuel : Nat) :
    ∀ (var : Variable α) (depth : Int) (s1 : σ) (s2 : τ),
      (MaxReferenceDepth + 1 - depth).toNat < fuel →
      ∃ r, getValueForVariable env1 var catalog vals opts depth s1 = (r, s1) ∧
        getValueForVariable env2 var catalog vals opts depth s2 = (r, s2) := by
  induction fuel with
  | zero => intro var depth s1 s2 h; omega
  | succ fuel ih =>
    intro var depth s1 s2 hf
    rw [getValueForVariable, getValueForVariable]
    by_cases hd : depth > MaxReferenceDepth
    · rw [if_pos hd, if_pos hd]; exact ⟨_, rfl, rfl⟩
    · rw [if_neg hd, if_neg hd]
      cases hv : vals.get? var.Name with
      | some x => exact ⟨_, rfl, rfl⟩
      | none =>
        by_cases hr : var.Reference = ""
        · simp only [hr, ne_eq, not_true_eq_false, if_false]
          rw [getVariable_nonInteractive_eq env1 var opts s1 hni,
            getVariable_nonInteractive_eq env2 var opts s2 hni]
          cases opts.Vars.get? var.Name with
          | some x => exact ⟨_, rfl, rfl⟩
          | none =>
            cases var.Default.isSome
            · exact ⟨_, rfl, rfl⟩
            · exact ⟨_, rfl, rfl⟩
        · simp only [hr, ne_eq, not_false_eq_true, if_true]
          cases hx : vals.get? var.Reference with
          | some x => exact ⟨_, rfl, rfl⟩
          | none =>
            cases hc : catalog.get? var.Reference with
            | none => exact ⟨_, rfl, rfl⟩
            | some reference =>
              simp only []
              apply ih
              simp only [MaxReferenceDepth] at *
              omega

theorem firstLoop_nonInteractive (env1 : Env α σ) (env2 : Env α τ)
    (catalog : GoMap (Variable α)) (opts : BoilerplateOptions α)
    (hni : opts.NonInteractive = true) (order : List (Variable α)) :
    ∀ (vars : GoMap (Value α)) (s1 : σ) (s2 : τ),
      ∃ r, firstLoop env1 catalog opts order vars s1 = (r, s1) ∧
        firstLoop env2 catalog opts order vars s2 = (r, s2) := by
  induction order with
  | nil => intro vars s1 s2; exact ⟨_, rfl, rfl⟩
  | cons var order ih =>
    intro vars s1 s2
    obtain ⟨r, h1, h2⟩ := getValueForVariable_nonInteractive env1 env2 catalog vars opts hni
      22 var 0 s1 s2 (by decide)
    rw [firstLoop, firstLoop, h1, h2]
    cases r with
    | error err => exact ⟨_, rfl, rfl⟩
    | ok u => exact ih _ s1 s2

/-- C17. With the non-interactive flag set, `getVariable`, `getValueForVariable` and Phase 1
of `GetVariables` return the same result for any two sets of collaborators (any two
behaviours of the prompt, over any two world states) and leave the world state as it was:
the prompt is never reached. -/
theorem nonInteractive_never_prompts (env1 : Env α σ) (env2 : Env α τ)
    (opts : BoilerplateOptions α) (hni : opts.NonInteractive = true) :
    (∀ (var : Variable α) (s1 : σ) (s2 : τ),
      (getVariable env1 var opts s1).1 = (getVariable env2 var opts s2).1 ∧
        (getVariable env1 var opts s1).2 = s1) ∧
    (∀ (var : Variable α) (catalog : GoMap (Variable α)) (vals : GoMap (Value α))
        (depth : Int) (s1 : σ) (s2 : τ),
      (getValueForVariable env1 var catalog vals opts depth s1).1
          = (getValueForVariable env2 var catalog vals opts depth s2).1 ∧
        (getValueForVariable env1 var catalog vals opts depth s1).2 = s1) ∧
    (∀ (boilerplateConfig rootBoilerplateConfig : BoilerplateConfig α)
        (thisDep : Dependency α) (order : List (Variable α)) (s1 : σ) (s2 : τ),
      (GetVariablesPhase1 env1 opts boilerplateConfig rootBoilerplateConfig thisDep order s1).1
          = (GetVariablesPhase1 env2 opts boilerplateConfig rootBoilerplateConfig thisDep
              order s2).1 ∧
        (GetVariablesPhase1 env1 opts boilerplateConfig rootBoilerplateConfig thisDep
          order s1).2 = s1) := by
  refine ⟨?_, ?_, ?_⟩
  · intro var s1 s2
    rw [getVariable_nonInteractive_eq env1 var opts s1 hni,
      getVariable_nonInteractive_eq env2 var opts s2 hni]
    exact ⟨rfl, rfl⟩
  · intro var catalog vals depth s1 s2
    obtain ⟨r, h1, h2⟩ := getValueForVariable_nonInteractive env1 env2 catalog vals opts hni
      ((MaxReferenceDepth + 1 - depth).toNat + 1) var depth s1 s2 (Nat.lt_succ_self _)
    rw [h1, h2]
    exact ⟨rfl, rfl⟩
  · intro boilerplateConfig rootBoilerplateConfig thisDep order s1 s2
    obtain ⟨r, h1, h2⟩ := firstLoop_nonInteractive env1 env2
      (getAllVariablesInConfig boilerplateConfig) opts hni order
      (initialVars opts boilerplateConfig rootBoilerplateConfig thisDep) s1 s2
    unfold GetVariablesPhase1
    rw [h1, h2]
    exact ⟨rfl, rfl⟩

/-- C17 at a concrete input: Phase 1 over `a` and `b` with a line waiting to be typed, and
with a prompt that always fails. -/
theorem nonInteractive_never_prompts_witness :
    (GetVariablesPhase1 scriptedEnv (mkOptions [] true) configAB configAB noDependency
        [varB, varA] ["typed"]).1
      = (GetVariablesPhase1 closedInputEnv (mkOptions [] true) configAB configAB noDependency
        [varB, varA] ()).1 ∧
    (GetVariablesPhase1 scriptedEnv (mkOptions [] true) configAB configAB noDependency
        [varB, varA] ["typed"]).2 = ["typed"] :=
  (nonInteractive_never_prompts scriptedEnv closedInputEnv (mkOptions [] true) rfl).2.2
    configAB configAB noDependency [varB, varA] ["typed"] ()

end NonInteractiveProofs

/-! ## Properties of the two loops -/

section DriverProofs

variable {α σ : Type}

theorem firstLoop_present (env : Env α σ) (catalog : GoMap (Variable α))
    (opts : BoilerplateOptions α) (order : List (Variable α)) :
    ∀ (vars final : GoMap (Value α)) (s s' : σ),
      firstLoop env catalog opts order vars s = (.ok final, s') →
      ∀ v ∈ order, ∃ x, final.get? v.Name = some x := by
  induction order with
  | nil => intro vars final s s' _ v hv; simp at hv
  | cons var order ih =>
    intro vars final s s' h v hv
    rw [firstLoop] at h
    rcases hres : getValueForVariable env var catalog vars opts 0 s with ⟨r, s1⟩
    rw [hres] at h
    cases r with
    | error err => simp at h
    | ok u =>
      simp only [] at h
      rcases List.mem_cons.1 hv with hv | hv
      · subst hv
        exact ⟨u, firstLoop_persist env catalog opts order _ final s1 s' _ u h
          (GoMap.get?_set_self _ _ _)⟩
      · exact ih _ final s1 s' h v hv

theorem firstLoop_frame (env : Env α σ) (catalog : GoMap (Variable α))
    (opts : BoilerplateOptions α) (order : List (Variable α)) :
    ∀ (vars final : GoMap (Value α)) (s s' : σ),
      firstLoop env catalog opts order vars s = (.ok final, s') →
      ∀ k, (∀ v ∈ order, v.Name ≠ k) → final.get? k = vars.get? k := by
  induction order with
  | nil =>
    intro vars final s s' h k _
    simp only [firstLoop, Prod.mk.injEq, Except.ok.injEq] at h
    rw [h.1]
  | cons var order ih =>
    intro vars final s s' h k hk
    rw [firstLoop] at h
    rcases hres : getValueForVariable env var catalog vars opts 0 s with ⟨r, s1⟩
    rw [hres] at h
    cases r with
    | error err => simp at h
    | ok u =>
      simp only [] at h
      rw [ih _ final s1 s' h k (fun v hv => hk v (List.mem_cons_of_mem _ hv))]
      exact GoMap.get?_set_of_ne _ _ _ _ (fun e => hk var (List.mem_cons_self _ _) e.symm)

theorem secondLoop_frame (env : Env α σ) (opts : BoilerplateOptions α)
    (order : List (Variable α)) :
    ∀ (vars final : GoMap (Value α)),
      secondLoop env opts order vars = .ok final →
      ∀ k, (∀ v ∈ order, v.Name ≠ k) → final.get? k = vars.get? k := by
  induction order with
  | nil =>
    intro vars final h k _
    simp only [secondLoop, Except.ok.injEq] at h
    rw [h]
  | cons var order ih =>
    intro vars final h k hk
    rw [secondLoop] at h
    cases hr : env.RenderVariable ((vars.get? var.Name).getD (Value.data none)) vars opts with
    | error err => rw [hr] at h; simp at h
    | ok rendered =>
      rw [hr] at h
      simp only [] at h
      cases hc : env.ConvertType rendered var with
      | error err => rw [hc] at h; simp at h
      | ok converted =>
        rw [hc] at h
        simp only [] at h
        rw [ih _ final h k (fun v hv => hk v (List.mem_cons_of_mem _ hv))]
        exact GoMap.get?_set_of_ne _ _ _ _ (fun e => hk var (List.mem_cons_self _ _) e.symm)

theorem secondLoop_keys (env : Env α σ) (opts : BoilerplateOptions α)
    (order : List (Variable α)) :
    ∀ (vars final : GoMap (Value α)),
      secondLoop env opts order vars = .ok final →
      ∀ k, (∃ x, final.get? k = some x) ↔
        ((∃ x, vars.get? k = some x) ∨ ∃ v ∈ order, v.Name = k) := by
  induction order with
  | nil =>
    intro vars final h k
    simp only [secondLoop, Except.ok.injEq] at h
    rw [h]
    simp
  | cons var order ih =>
    intro vars final h k
    rw [secondLoop] at h
    cases hr : env.RenderVariable ((vars.get? var.Name).getD (Value.data none)) vars opts with
    | error err => rw [hr] at h; simp at h
    | ok rendered =>
      rw [hr] at h
      simp only [] at h
      cases hc : env.ConvertType rendered var with
      | error err => rw [hc] at h; simp at h
      | ok converted =>
        rw [hc] at h
        simp only [] at h
        rw [ih _ final h k]
        by_cases hk : k = var.Name
        · subst hk
          simp [GoMap.get?_set_self]
        · rw [GoMap.get?_set_of_ne _ _ _ _ hk]
          constructor
          · rintro (h1 | ⟨v, hv, hn⟩)
            · exact Or.inl h1
            · exact Or.inr ⟨v, List.mem_cons_of_mem _ hv, hn⟩
          · rintro (h1 | ⟨v, hv, hn⟩)
            · exact Or.inl h1
            · rcases List.mem_cons.1 hv with hv | hv
              · subst hv; exact absurd hn.symm hk
              · exact Or.inr ⟨v, hv, hn⟩

theorem firstLoop_keys (env : Env α σ) (catalog : GoMap (Variable α))
    (opts : BoilerplateOptions α) (order : List (Variable α))
    (vars final : GoMap (Value α)) (s s' : σ)
    (h : firstLoop env catalog opts order vars s = (.ok final, s')) (k : String) :
    (∃ x, final.get? k = some x) ↔
      ((∃ x, vars.get? k = some x) ∨ ∃ v ∈ order, v.Name = k) := by
  constructor
  · rintro ⟨x, hx⟩
    by_cases hk : ∃ v ∈ order, v.Name = k
    · exact Or.inr hk
    · left
      have hne : ∀ v ∈ order, v.Name ≠ k := fun v hv e => hk ⟨v, hv, e⟩
      rw [firstLoop_frame env catalog opts order vars final s s' h k hne] at hx
      exact ⟨x, hx⟩
  · rintro (⟨x, hx⟩ | ⟨v, hv, hn⟩)
    · exact ⟨x, firstLoop_persist env catalog opts order vars final s s' k x h hx⟩
    · subst hn
      exact firstLoop_present env catalog opts order vars final s s' h v hv

theorem initialVars_get?_all (opts : BoilerplateOptions α)
    (boilerplateConfig rootBoilerplateConfig : BoilerplateConfig α) (thisDep : Dependency α)
    (k : String) :
    (initialVars opts boilerplateConfig rootBoilerplateConfig thisDep).get? k
      = if k = "This" then
          some (Value.thisTemplateProps boilerplateConfig opts thisDep)
        else if k = "BoilerplateConfigDeps" then
          some (Value.configDeps
            (rootBoilerplateConfig.Dependencies.foldl (fun m dep => m.set dep.Name dep)
              GoMap.empty))
        else if k = "BoilerplateConfigVars" then
          some (Value.configVars
            (rootBoilerplateConfig.Variables.foldl
              (fun m configVar => m.set configVar.Name configVar) GoMap.empty))
        else (opts.Vars.get? k).map Value.data := by
  by_cases h3 : k = "This"
  · subst h3
    rw [if_pos rfl]
    exact GoMap.get?_set_self _ _ _
  · by_cases h2 : k = "BoilerplateConfigDeps"
    · subst h2
      rw [if_neg h3, if_pos rfl]
      unfold initialVars
      simp only [GoMap.get?_set_of_ne _ _ _ _ h3]
      exact GoMap.get?_set_self _ _ _
    · by_cases h1 : k = "BoilerplateConfigVars"
      · subst h1
        rw [if_neg h3, if_neg h2, if_pos rfl]
        unfold initialVars
        simp only [GoMap.get?_set_of_ne _ _ _ _ h3, GoMap.get?_set_of_ne _ _ _ _ h2]
        exact GoMap.get?_set_self _ _ _
      · rw [if_neg h3, if_neg h2, if_neg h1]
        exact initialVars_get? opts boilerplateConfig rootBoilerplateConfig thisDep k h1 h2 h3

theorem GetVariables_ok (env : Env α σ) (opts : BoilerplateOptions α)
    (boilerplateConfig rootBoilerplateConfig : BoilerplateConfig α) (thisDep : Dependency α)
    (order1 order2 : List (Variable α)) (s s' : σ) (final : GoMap (Value α))
    (h : GetVariables env opts boilerplateConfig rootBoilerplateConfig thisDep order1 order2 s
      = (.ok final, s')) :
    ∃ vars, GetVariablesPhase1 env opts boilerplateConfig rootBoilerplateConfig thisDep
        order1 s = (.ok vars, s') ∧ secondLoop env opts order2 vars = .ok final := by
  unfold GetVariables at h
  rcases hp : GetVariablesPhase1 env opts boilerplateConfig rootBoilerplateConfig thisDep
    order1 s with ⟨r, s1⟩
  rw [hp] at h
  cases r with
  | error err => simp at h
  | ok vars =>
    simp only [Prod.mk.injEq] at h
    exact ⟨vars, by rw [h.2], h.1⟩

theorem GetVariables_of_fuel (env : Env α σ) (opts : BoilerplateOptions α)
    (boilerplateConfig rootBoilerplateConfig : BoilerplateConfig α) (thisDep : Dependency α)
    (order1 order2 : List (Variable α)) (s s' : σ) (vars : GoMap (Value α))
    (r : Except Error (GoMap (Value α)))
    (h1 : firstLoopFuel env (getAllVariablesInConfig boilerplateConfig) opts order1
      (initialVars opts boilerplateConfig rootBoilerplateConfig thisDep) s
        = some (.ok vars, s'))
    (h2 : secondLoop env opts order2 vars = r) :
    GetVariables env opts boilerplateConfig rootBoilerplateConfig thisDep order1 order2 s
      = (r, s') := by
  unfold GetVariables
  rw [GetVariablesPhase1_of_fuel env opts boilerplateConfig rootBoilerplateConfig thisDep
    order1 s _ h1]
  simp only [h2]

/-- C20. When `GetVariables` succeeds, the keys of the returned map are exactly the keys of
the command line options, the three synthetic keys and the names of the catalog's
variables; and every key that is not the name of a catalog variable holds its synthetic
entry if it is one of the three synthetic keys (whatever the command line options hold
under it), and otherwise the entry of the command line options, unchanged. -/
theorem GetVariables_frame (env : Env α σ) (opts : BoilerplateOptions α)
    (boilerplateConfig rootBoilerplateConfig : BoilerplateConfig α) (thisDep : Dependency α)
    (order1 order2 : List (Variable α)) (s s' : σ) (final : GoMap (Value α))
    (horder1 : (getAllVariablesInConfig boilerplateConfig).IsIterationOrder order1)
    (horder2 : (getAllVariablesInConfig boilerplateConfig).IsIterationOrder order2)
    (hres : GetVariables env opts boilerplateConfig rootBoilerplateConfig thisDep
      order1 order2 s = (.ok final, s')) :
    (∀ k, (∃ x, final.get? k = some x) ↔
      ((∃ y, opts.Vars.get? k = some y) ∨ k = "BoilerplateConfigVars" ∨
        k = "BoilerplateConfigDeps" ∨ k = "This" ∨
        ∃ v ∈ (getAllVariablesInConfig boilerplateConfig).values, v.Name = k)) ∧
    (∀ k, (∀ v ∈ (getAllVariablesInConfig boilerplateConfig).values, v.Name ≠ k) →
      final.get? k
        = if k = "This" then
            some (Value.thisTemplateProps boilerplateConfig opts thisDep)
          else if k = "BoilerplateConfigDeps" then
            some (Value.configDeps
              (rootBoilerplateConfig.Dependencies.foldl (fun m dep => m.set dep.Name dep)
                GoMap.empty))
          else if k = "BoilerplateConfigVars" then
            some (Value.configVars
              (rootBoilerplateConfig.Variables.foldl
                (fun m configVar => m.set configVar.Name configVar) GoMap.empty))
          else (opts.Vars.get? k).map Value.data) := by
  obtain ⟨vars, hp, hs⟩ := GetVariables_ok env opts boilerplateConfig rootBoilerplateConfig
    thisDep order1 order2 s s' final hres
  unfold GetVariablesPhase1 at hp
  constructor
  · intro k
    rw [secondLoop_keys env opts order2 vars final hs k,
      firstLoop_keys env _ opts order1 _ vars s s' hp k,
      initialVars_get?_all opts boilerplateConfig rootBoilerplateConfig thisDep k]
    have hm1 : (∃ v ∈ order1, v.Name = k) ↔
        ∃ v ∈ (getAllVariablesInConfig boilerplateConfig).values, v.Name = k :=
      ⟨fun ⟨v, hv, hn⟩ => ⟨v, horder1.mem_iff.1 hv, hn⟩,
        fun ⟨v, hv, hn⟩ => ⟨v, horder1.mem_iff.2 hv, hn⟩⟩
    have hm2 : (∃ v ∈ order2, v.Name = k) ↔
        ∃ v ∈ (getAllVariablesInConfig boilerplateConfig).values, v.Name = k :=
      ⟨fun ⟨v, hv, hn⟩ => ⟨v, horder2.mem_iff.1 hv, hn⟩,
        fun ⟨v, hv, hn⟩ => ⟨v, horder2.mem_iff.2 hv, hn⟩⟩
    rw [hm1, hm2]
    by_cases h3 : k = "This"
    · simp [h3]
    · by_cases h2 : k = "BoilerplateConfigDeps"
      · simp [h2]
      · by_cases h1 : k = "BoilerplateConfigVars"
        · simp [h1]
        · simp only [if_neg h3, if_neg h2, if_neg h1, h1, h2, h3, false_or]
          cases opts.Vars.get? k with
          | none => simp
          | some y => simp
  · intro k hk
    rw [secondLoop_frame env opts order2 vars final hs k
        (fun v hv => hk v (horder2.mem_iff.1 hv)),
      firstLoop_frame env _ opts order1 _ vars s s' hp k
        (fun v hv => hk v (horder1.mem_iff.1 hv))]
    exact initialVars_get?_all opts boilerplateConfig rootBoilerplateConfig thisDep k

/-- C20 at a concrete input: `a` and `b` with the command line value `"X"` for `b`; the key
`This`, which no variable is named, holds the synthetic entry. -/
theorem GetVariables_frame_witness :
    rawValuesOverride.get? "This"
      = some (Value.thisTemplateProps configAB (mkOptions [("b", some "X")] true)
          noDependency) :=
  (GetVariables_frame scriptedEnv (mkOptions [("b", some "X")] true) configAB configAB
    noDependency [varA, varB] [varB, varA] [] [] rawValuesOverride (List.Perm.refl _)
    (List.Perm.swap _ _ _)
    (GetVariables_of_fuel _ _ _ _ _ _ _ _ _ rawValuesOverride _ (by decide) (by decide))).2
    "This" (by decide)

theorem secondLoopRenderCalls_length (env : Env α σ) (opts : BoilerplateOptions α)
    (order : List (Variable α)) :
    ∀ (vars final : GoMap (Value α)), secondLoop env opts order vars = .ok final →
      (secondLoopRenderCalls env opts order vars).length = order.length := by
  induction order with
  | nil => intro vars final _; rfl
  | cons var order ih =>
    intro vars final h
    rw [secondLoop] at h
    rw [secondLoopRenderCalls]
    cases hr : env.RenderVariable ((vars.get? var.Name).getD (Value.data none)) vars opts with
    | error err => rw [hr] at h; simp at h
    | ok rendered =>
      rw [hr] at h
      simp only [] at h
      cases hc : env.ConvertType rendered var with
      | error err => rw [hc] at h; simp at h
      | ok converted =>
        rw [hc] at h
        simp only [] at h
        simp only [List.length_cons, hc, ih _ final h]

theorem firstLoop_error_iff (env : Env α σ) (catalog : GoMap (Variable α))
    (opts : BoilerplateOptions α) (order : List (Variable α)) :
    ∀ (vars : GoMap (Value α)) (s s' : σ) (e : Error),
      firstLoop env catalog opts order vars s = (.error e, s') ↔
        ∃ pre v post vars1 s1, order = pre ++ v :: post ∧
          firstLoop env catalog opts pre vars s = (.ok vars1, s1) ∧
          getValueForVariable env v catalog vars1 opts 0 s1 = (.error e, s') := by
  induction order with
  | nil =>
    intro vars s s' e
    constructor
    · intro h; simp [firstLoop] at h
    · rintro ⟨pre, v, post, vars1, s1, h, _⟩
      simp at h
  | cons var order ih =>
    intro vars s s' e
    rw [firstLoop]
    rcases hres : getValueForVariable env var catalog vars opts 0 s with ⟨r, s1⟩
    cases r with
    | error err =>
      constructor
      · intro h
        simp only [Prod.mk.injEq, Except.error.injEq] at h
        refine ⟨[], var, order, vars, s, rfl, rfl, ?_⟩
        rw [hres, h.1, h.2]
      · rintro ⟨pre, v, post, vars1, s0, hsplit, hpre, hv⟩
        cases pre with
        | nil =>
          simp only [List.nil_append, List.cons.injEq] at hsplit
          simp only [firstLoop, Prod.mk.injEq, Except.ok.injEq] at hpre
          rw [← hsplit.1, ← hpre.1, ← hpre.2, hres] at hv
          simpa using hv
        | cons p pre =>
          simp only [List.cons_append, List.cons.injEq] at hsplit
          rw [← hsplit.1, firstLoop, hres] at hpre
          simp at hpre
    | ok u =>
      simp only []
      rw [ih]
      constructor
      · rintro ⟨pre, v, post, vars1, s0, hsplit, hpre, hv⟩
        refine ⟨var :: pre, v, post, vars1, s0, by rw [hsplit]; rfl, ?_, hv⟩
        rw [firstLoop, hres]
        exact hpre
      · rintro ⟨pre, v, post, vars1, s0, hsplit, hpre, hv⟩
        cases pre with
        | nil =>
          simp only [List.nil_append, List.cons.injEq] at hsplit
          simp only [firstLoop, Prod.mk.injEq, Except.ok.injEq] at hpre
          rw [← hsplit.1, ← hpre.1, ← hpre.2, hres] at hv
          simp at hv
        | cons p pre =>
          simp only [List.cons_append, List.cons.injEq] at hsplit
          rw [← hsplit.1, firstLoop, hres] at hpre
          exact ⟨pre, v, post, vars1, s0, hsplit.2, hpre, hv⟩

theorem secondLoop_error_iff (env : Env α σ) (opts : BoilerplateOptions α)
    (order : List (Variable α)) :
    ∀ (vars : GoMap (Value α)) (e : Error),
      secondLoop env opts order vars = .error e ↔
        ∃ pre v post vars2, order = pre ++ v :: post ∧
          secondLoop env opts pre vars = .ok vars2 ∧
          (env.RenderVariable ((vars2.get? v.Name).getD (Value.data none)) vars2 opts
              = .error e ∨
            ∃ rendered,
              env.RenderVariable ((vars2.get? v.Name).getD (Value.data none)) vars2 opts
                = .ok rendered ∧
              env.ConvertType rendered v = .error e) := by
  induction order with
  | nil =>
    intro vars e
    constructor
    · intro h; simp [secondLoop] at h
    · rintro ⟨pre, v, post, vars2, h, _⟩
      simp at h
  | cons var order ih =>
    intro vars e
    have hstep : ∀ (tail : List (Variable α)) (converted : Value α),
        (∃ rendered,
          env.RenderVariable ((vars.get? var.Name).getD (Value.data none)) vars opts
            = .ok rendered ∧ env.ConvertType rendered var = .ok converted) →
        secondLoop env opts (var :: tail) vars
          = secondLoop env opts tail (vars.set var.Name converted) := by
      rintro tail converted ⟨rendered, hr, hc⟩
      rw [secondLoop, hr]
      simp only [hc]
    constructor
    · intro h
      cases hr : env.RenderVariable ((vars.get? var.Name).getD (Value.data none)) vars opts with
      | error err =>
        rw [secondLoop, hr] at h
        simp only [Except.error.injEq] at h
        exact ⟨[], var, order, vars, rfl, rfl, Or.inl (by rw [hr, h])⟩
      | ok rendered =>
        cases hc : env.ConvertType rendered var with
        | error err =>
          rw [secondLoop, hr] at h
          simp only [hc, Except.error.injEq] at h
          exact ⟨[], var, order, vars, rfl, rfl, Or.inr ⟨rendered, hr, by rw [hc, h]⟩⟩
        | ok converted =>
          rw [hstep order converted ⟨rendered, hr, hc⟩, ih] at h
          obtain ⟨pre, v, post, vars2, hsplit, hpre, hv⟩ := h
          refine ⟨var :: pre, v, post, vars2, by rw [hsplit]; rfl, ?_, hv⟩
          rw [hstep pre converted ⟨rendered, hr, hc⟩]
          exact hpre
    · rintro ⟨pre, v, post, vars2, hsplit, hpre, hv⟩
      cases pre with
      | nil =>
        simp only [List.nil_append, List.cons.injEq] at hsplit
        simp only [secondLoop, Except.ok.injEq] at hpre
        obtain ⟨hv1, hpost⟩ := hsplit
        subst hv1
        subst hpre
        rcases hv with hv | ⟨rendered, hr, hc⟩
        · rw [secondLoop, hv]
        · rw [secondLoop, hr]
          simp only [hc]
      | cons p pre =>
        simp only [List.cons_append, List.cons.injEq] at hsplit
        obtain ⟨hp, hrest⟩ := hsplit
        subst hp
        cases hr : env.RenderVariable ((vars.get? var.Name).getD (Value.data none)) vars opts with
        | error err => rw [secondLoop, hr] at hpre; simp at hpre
        | ok rendered =>
          cases hc : env.ConvertType rendered var with
          | error err =>
            rw [secondLoop, hr] at hpre
            simp [hc] at hpre
          | ok converted =>
            rw [hstep order converted ⟨rendered, hr, hc⟩, ih]
            refine ⟨pre, v, post, vars2, hrest, ?_, hv⟩
            rw [hstep pre converted ⟨rendered, hr, hc⟩] at hpre
            exact hpre

/-- C14. `GetVariables` returns an error exactly when a variable of the first loop fails in
the resolver, or Phase 1 succeeds and a variable of the second loop fails in the renderer
or in the type converter, the variables before it having been processed without error; the
error returned is that error unchanged, no map is returned with it, and the variables after
the failing one play no part in the result. -/
theorem GetVariables_error_iff (env : Env α σ) (opts : BoilerplateOptions α)
    (boilerplateConfig rootBoilerplateConfig : BoilerplateConfig α) (thisDep : Dependency α)
    (order1 order2 : List (Variable α)) (s s' : σ) (e : Error) :
    GetVariables env opts boilerplateConfig rootBoilerplateConfig thisDep order1 order2 s
        = (.error e, s') ↔
      ((∃ pre v post vars1 s1, order1 = pre ++ v :: post ∧
          firstLoop env (getAllVariablesInConfig boilerplateConfig) opts pre
            (initialVars opts boilerplateConfig rootBoilerplateConfig thisDep) s
              = (.ok vars1, s1) ∧
          getValueForVariable env v (getAllVariablesInConfig boilerplateConfig) vars1 opts 0 s1
            = (.error e, s')) ∨
        ∃ vars, GetVariablesPhase1 env opts boilerplateConfig rootBoilerplateConfig thisDep
            order1 s = (.ok vars, s') ∧
          ∃ pre v post vars2, order2 = pre ++ v :: post ∧
            secondLoop env opts pre vars = .ok vars2 ∧
            (env.RenderVariable ((vars2.get? v.Name).getD (Value.data none)) vars2 opts
                = .error e ∨
              ∃ rendered,
                env.RenderVariable ((vars2.get? v.Name).getD (Value.data none)) vars2 opts
                  = .ok rendered ∧
                env.ConvertType rendered v = .error e)) := by
  unfold GetVariables
  rcases hp : GetVariablesPhase1 env opts boilerplateConfig rootBoilerplateConfig thisDep
    order1 s with ⟨r, s1⟩
  have hp' := hp
  unfold GetVariablesPhase1 at hp'
  cases r with
  | error err =>
    simp only [Prod.mk.injEq, Except.error.injEq]
    constructor
    · rintro ⟨he, hs⟩
      left
      rw [← he, ← hs]
      exact (firstLoop_error_iff env _ opts order1 _ s s1 err).1 hp'
    · rintro (h | ⟨vars, hv, _⟩)
      · have := (firstLoop_error_iff env _ opts order1 _ s s' e).2 h
        rw [hp'] at this
        simpa using this
      · simp at hv
  | ok vars =>
    simp only [Prod.mk.injEq]
    constructor
    · rintro ⟨he, hs⟩
      right
      exact ⟨vars, ⟨rfl, hs⟩, (secondLoop_error_iff env opts order2 vars e).1 he⟩
    · rintro (h | ⟨vars', hv, h⟩)
      · have := (firstLoop_error_iff env _ opts order1 _ s s' e).2 h
        rw [hp'] at this
        simp at this
      · simp only [Prod.mk.injEq, Except.ok.injEq] at hv
        rw [← hv.1] at h
        exact ⟨(secondLoop_error_iff env opts order2 vars e).2 h, hv.2⟩

theorem getAllVariablesInConfig_names_nodup (boilerplateConfig : BoilerplateConfig α)
    (order : List (Variable α))
    (horder : (getAllVariablesInConfig boilerplateConfig).IsIterationOrder order) :
    (order.map (fun v => v.Name)).Nodup := by
  have hvals : (getAllVariablesInConfig boilerplateConfig).values.map (fun v => v.Name)
      = (getAllVariablesInConfig boilerplateConfig).entries.map Prod.fst := by
    unfold GoMap.values
    rw [List.map_map]
    apply List.map_congr_left
    rintro ⟨k, v⟩ hmem
    exact getAllVariablesInConfig_key boilerplateConfig k v
      (lookupEntry_of_mem _ k v (getAllVariablesInConfig boilerplateConfig).nodup hmem)
  have hperm : (order.map (fun v => v.Name)).Perm
      ((getAllVariablesInConfig boilerplateConfig).values.map (fun v => v.Name)) :=
    List.Perm.map _ horder
  rw [hperm.nodup_iff, hvals]
  exact (getAllVariablesInConfig boilerplateConfig).nodup

/-- C16. The final map depends on the order of the second loop, which overwrites the raw
value of each variable in the same map it passes to the renderer. With a renderer that
changes plain strings, the template `t` ends as `"x!"`, the rendered value of `a`, when `a`
is rendered first, and as `"x"`, the raw value of `a`, when `t` is rendered first. With a
renderer that only substitutes references, `t` refers to `a` and `a` to `c`: `t` ends as
`"x"` when the variables are rendered in the order `c`, `a`, `t`, and as the unrendered
template `"$c"` of `a` when they are rendered in the order `t`, `a`, `c`. -/
theorem secondLoop_order_dependent :
    (getAllVariablesInConfig configTemplate).IsIterationOrder [varX, varT] ∧
    (getAllVariablesInConfig configTemplate).IsIterationOrder [varT, varX] ∧
    GetVariablesPhase1 templateEnv (mkOptions [] true) configTemplate configTemplate
      noDependency [varX, varT] [] = (.ok rawValuesTemplate, []) ∧
    secondLoop templateEnv (mkOptions [] true) [varX, varT] rawValuesTemplate
      = .ok ((rawValuesTemplate.set "a" (Value.data (some "x!"))).set "t"
          (Value.data (some "x!"))) ∧
    secondLoop templateEnv (mkOptions [] true) [varT, varX] rawValuesTemplate
      = .ok ((rawValuesTemplate.set "t" (Value.data (some "x"))).set "a"
          (Value.data (some "x!"))) ∧
    ((rawValuesTemplate.set "a" (Value.data (some "x!"))).set "t"
        (Value.data (some "x!"))).get? "t"
      ≠ ((rawValuesTemplate.set "t" (Value.data (some "x"))).set "a"
        (Value.data (some "x!"))).get? "t" ∧
    (getAllVariablesInConfig configNested).IsIterationOrder [plainC, templateA, templateT] ∧
    (getAllVariablesInConfig configNested).IsIterationOrder [templateT, templateA, plainC] ∧
    GetVariablesPhase1 substEnv (mkOptions [] true) configNested configNested noDependency
      [plainC, templateA, templateT] [] = (.ok rawValuesNested, []) ∧
    GetVariables substEnv (mkOptions [] true) configNested configNested noDependency
        [plainC, templateA, templateT] [plainC, templateA, templateT] []
      = (.ok (((rawValuesNested.set "c" (Value.data (some "x"))).set "a"
          (Value.data (some "x"))).set "t" (Value.data (some "x"))), []) ∧
    GetVariables substEnv (mkOptions [] true) configNested configNested noDependency
        [plainC, templateA, templateT] [templateT, templateA, plainC] []
      = (.ok (((rawValuesNested.set "t" (Value.data (some "$c"))).set "a"
          (Value.data (some "x"))).set "c" (Value.data (some "x"))), []) ∧
    (((rawValuesNested.set "c" (Value.data (some "x"))).set "a"
        (Value.data (some "x"))).set "t" (Value.data (some "x"))).get? "t"
      = some (Value.data (some "x")) ∧
    (((rawValuesNested.set "t" (Value.data (some "$c"))).set "a"
        (Value.data (some "x"))).set "c" (Value.data (some "x"))).get? "t"
      = some (Value.data (some "$c")) := by
  refine ⟨List.Perm.refl _, List.Perm.swap _ _ _, ?_, by decide, by decide, by decide,
    List.Perm.refl _, ?_, ?_, ?_, ?_, by decide, by decide⟩
  · exact GetVariablesPhase1_of_fuel _ _ _ _ _ _ _ _ (by decide)
  · exact List.reverse_perm [plainC, templateA, templateT]
  · exact GetVariablesPhase1_of_fuel _ _ _ _ _ _ _ _ (by decide)
  · exact GetVariables_of_fuel _ _ _ _ _ _ _ _ _ rawValuesNested _ (by decide) (by decide)
  · exact GetVariables_of_fuel _ _ _ _ _ _ _ _ _ rawValuesNested _ (by decide) (by decide)

end DriverProofs

/-! ## Invocations of the value-source policy -/

section TraceProofs

variable {α σ : Type}

theorem getValueForVariableTraced_fst (env : Env α σ) (catalog : GoMap (Variable α))
    (vals : GoMap (Value α)) (opts : BoilerplateOptions α) (fuel : Nat) :
    ∀ (var : Variable α) (depth : Int) (s : σ),
      (MaxReferenceDepth + 1 - depth).toNat < fuel →
      ∃ calls, getValueForVariableTraced env catalog vals opts fuel var depth s
        = some (getValueForVariable env var catalog vals opts depth s, calls) := by
  induction fuel with
  | zero => intro var depth s h; omega
  | succ fuel ih =>
    intro var depth s h
    rw [getValueForVariable, getValueForVariableTraced]
    by_cases hd : depth > MaxReferenceDepth
    · rw [if_pos hd, if_pos hd]; exact ⟨_, rfl⟩
    · rw [if_neg hd, if_neg hd]
      cases hv : vals.get? var.Name with
      | some x => exact ⟨_, rfl⟩
      | none =>
        by_cases hr : var.Reference = ""
        · simp only [hr, ne_eq, not_true_eq_false, if_false]
          rcases getVariable env var opts s with ⟨r, s1⟩
          cases r
          · exact ⟨_, rfl⟩
          · exact ⟨_, rfl⟩
        · simp only [hr, ne_eq, not_false_eq_true, if_true]
          cases hx : vals.get? var.Reference with
          | some x => exact ⟨_, rfl⟩
          | none =>
            cases hc : catalog.get? var.Reference with
            | none => exact ⟨_, rfl⟩
            | some reference =>
              simp only []
              apply ih
              simp only [MaxReferenceDepth] at *
              omega

theorem getValueForVariableTraced_calls (env : Env α σ) (catalog : GoMap (Variable α))
    (vals : GoMap (Value α)) (opts : BoilerplateOptions α)
    (hkey : ∀ k w, catalog.get? k = some w → w.Name = k) (fuel : Nat) :
    ∀ (var : Variable α) (depth : Int) (s : σ) (r : Except Error (Value α) × σ)
      (calls : List (Variable α)),
      catalog.get? var.Name = some var →
      getValueForVariableTraced env catalog vals opts fuel var depth s = some (r, calls) →
      calls.length ≤ 1 ∧
        ∀ w ∈ calls, w = var ∨
          ∃ u, catalog.get? u.Name = some u ∧ u.Reference ≠ "" ∧ u.Reference = w.Name := by
  induction fuel with
  | zero => intro var depth s r calls _ h; simp [getValueForVariableTraced] at h
  | succ fuel ih =>
    intro var depth s r calls hcat h
    rw [getValueForVariableTraced] at h
    by_cases hd : depth > MaxReferenceDepth
    · rw [if_pos hd] at h
      simp only [Option.some.injEq, Prod.mk.injEq] at h
      rw [← h.2]; simp
    · rw [if_neg hd] at h
      cases hv : vals.get? var.Name with
      | some x =>
        simp only [hv, Option.some.injEq, Prod.mk.injEq] at h
        rw [← h.2]; simp
      | none =>
        simp only [hv] at h
        by_cases hr : var.Reference = ""
        · simp only [hr, ne_eq, not_true_eq_false, if_false] at h
          rcases hg : getVariable env var opts s with ⟨res, s1⟩
          rw [hg] at h
          cases res with
          | error err =>
            simp only [Option.some.injEq, Prod.mk.injEq] at h
            rw [← h.2]; simp
          | ok y =>
            simp only [Option.some.injEq, Prod.mk.injEq] at h
            rw [← h.2]; simp
        · simp only [hr, ne_eq, not_false_eq_true, if_true] at h
          cases hx : vals.get? var.Reference with
          | some x =>
            simp only [hx, Option.some.injEq, Prod.mk.injEq] at h
            rw [← h.2]; simp
          | none =>
            simp only [hx] at h
            cases hc : catalog.get? var.Reference with
            | none =>
              simp only [hc, Option.some.injEq, Prod.mk.injEq] at h
              rw [← h.2]; simp
            | some reference =>
              simp only [hc] at h
              have hname : reference.Name = var.Reference := hkey _ _ hc
              obtain ⟨hlen, hcalls⟩ := ih reference (depth + 1) s r calls
                (by rw [hname]; exact hc) h
              refine ⟨hlen, ?_⟩
              intro w hw
              right
              rcases hcalls w hw with hw' | hw'
              · exact ⟨var, hcat, hr, by rw [hw', hname]⟩
              · exact hw'

theorem firstLoopTraced_fst (env : Env α σ) (catalog : GoMap (Variable α))
    (opts : BoilerplateOptions α) (order : List (Variable α)) :
    ∀ (vars : GoMap (Value α)) (s : σ),
      ∃ calls, firstLoopTraced env catalog opts order vars s
        = some (firstLoop env catalog opts order vars s, calls) := by
  induction order with
  | nil => intro vars s; exact ⟨_, rfl⟩
  | cons var order ih =>
    intro vars s
    obtain ⟨calls, hc⟩ := getValueForVariableTraced_fst env catalog vars opts 22 var 0 s
      (by decide)
    rw [firstLoopTraced, firstLoop, hc]
    rcases getValueForVariable env var catalog vars opts 0 s with ⟨r, s1⟩
    cases r with
    | error err => exact ⟨_, rfl⟩
    | ok u =>
      obtain ⟨later, hl⟩ := ih (vars.set var.Name u) s1
      simp only [hl]
      exact ⟨_, rfl⟩

theorem firstLoopTraced_calls (env : Env α σ) (catalog : GoMap (Variable α))
    (opts : BoilerplateOptions α)
    (hkey : ∀ k w, catalog.get? k = some w → w.Name = k) (n : String)
    (hunref : ∀ u, catalog.get? u.Name = some u → u.Reference ≠ "" → u.Reference ≠ n)
    (order : List (Variable α)) :
    ∀ (vars : GoMap (Value α)) (s : σ) (r : Except Error (GoMap (Value α)) × σ)
      (calls : List (Variable α)),
      (∀ v ∈ order, catalog.get? v.Name = some v) →
      firstLoopTraced env catalog opts order vars s = some (r, calls) →
      calls.length ≤ order.length ∧
        (calls.map (fun v => v.Name)).count n ≤ (order.map (fun v => v.Name)).count n := by
  induction order with
  | nil =>
    intro vars s r calls _ h
    simp only [firstLoopTraced, Option.some.injEq, Prod.mk.injEq] at h
    rw [← h.2]; simp
  | cons var order ih =>
    intro vars s r calls hcat h
    rw [firstLoopTraced] at h
    cases ht : getValueForVariableTraced env catalog vars opts 22 var 0 s with
    | none => rw [ht] at h; simp at h
    | some res =>
      obtain ⟨⟨res1, s1⟩, first⟩ := res
      rw [ht] at h
      obtain ⟨hlen, hfirst⟩ := getValueForVariableTraced_calls env catalog vars opts hkey 22
        var 0 s (res1, s1) first (hcat var (List.mem_cons_self _ _)) ht
      have hcount : (first.map (fun v => v.Name)).count n
          ≤ ([var].map (fun v => v.Name)).count n := by
        match first, hlen, hfirst with
        | [], _, _ => simp
        | [w], _, hw =>
          by_cases hwn : w.Name = n
          · rcases hw w (List.mem_cons_self _ _) with hw' | ⟨u, hu, hne, href⟩
            · rw [hw']
            · exact absurd (href.trans hwn) (hunref u hu hne)
          · simp [List.count_cons, hwn]
        | _ :: _ :: _, hl, _ => simp at hl
      cases res1 with
      | error err =>
        simp only [Option.some.injEq, Prod.mk.injEq] at h
        rw [← h.2]
        refine ⟨by simp only [List.length_cons]; omega, ?_⟩
        refine le_trans hcount ?_
        simp only [List.map_cons, List.map_nil, List.count_cons, List.count_nil]
        omega
      | ok u =>
        simp only [] at h
        cases hl : firstLoopTraced env catalog opts order (vars.set var.Name u) s1 with
        | none => rw [hl] at h; simp at h
        | some rest =>
          obtain ⟨result, later⟩ := rest
          rw [hl] at h
          simp only [Option.some.injEq, Prod.mk.injEq] at h
          obtain ⟨hlen', hcount'⟩ := ih (vars.set var.Name u) s1 result later
            (fun v hv => hcat v (List.mem_cons_of_mem _ hv)) hl
          rw [← h.2]
          refine ⟨by simp only [List.length_append, List.length_cons]; omega, ?_⟩
          simp only [List.map_append, List.count_append]
          simp only [List.map_cons, List.map_nil, List.count_cons, List.count_nil] at hcount ⊢
          omega

/-- C11. The value of a referenced variable is computed more than once. The variable `b`
references `a` and the first loop processes `b` before `a`: `getVariable` is invoked for `a`
while `b` is resolved, the result is stored under `b` only, and `getVariable` is invoked
for `a` again when `a` is resolved. In interactive mode the user is prompted twice for `a`,
and Phase 1 stores the first answer under `b` and the second under `a`. When `a` is
processed first, the lookup of the reference finds the stored value and `getVariable` is
invoked once. -/
theorem firstLoop_recomputes :
    (getAllVariablesInConfig configAB).IsIterationOrder [varB, varA] ∧
    firstLoopTraced scriptedEnv (getAllVariablesInConfig configAB) (mkOptions [] true)
        [varB, varA] (initialVars (mkOptions [] true) configAB configAB noDependency) []
      = some ((.ok rawValuesBA, []), [varA, varA]) ∧
    firstLoopTraced scriptedEnv (getAllVariablesInConfig configAB) (mkOptions [] false)
        [varB, varA] (initialVars (mkOptions [] false) configAB configAB noDependency)
        ["1", "2"]
      = some ((.ok (((initialVars (mkOptions [] false) configAB configAB noDependency).set
            "b" (Value.data (some "1"))).set "a" (Value.data (some "2"))), []),
          [varA, varA]) ∧
    GetVariablesPhase1 scriptedEnv (mkOptions [] false) configAB configAB noDependency
        [varB, varA] ["1", "2"]
      = (.ok (((initialVars (mkOptions [] false) configAB configAB noDependency).set
            "b" (Value.data (some "1"))).set "a" (Value.data (some "2"))), []) ∧
    List.count varA [varA, varA] = 2 ∧
    firstLoopTraced scriptedEnv (getAllVariablesInConfig configAB) (mkOptions [] true)
        [varA, varB] (initialVars (mkOptions [] true) configAB configAB noDependency) []
      = some ((.ok rawValuesAB, []), [varA]) := by
  refine ⟨List.Perm.swap _ _ _, by decide, by decide, ?_, by decide, by decide⟩
  exact GetVariablesPhase1_of_fuel _ _ _ _ _ _ _ _ (by decide)

end TraceProofs

/-! ## The order of the first loop -/

section OrderProofs

variable {α σ : Type}

end OrderProofs

end Boilerplate
